import Mathlib

/-!
Shallow embedding of the YouTube caption fetcher content script
(`content_script.js`) and proofs about its specification claims.

JavaScript strings are modelled as `List Char`.  Browser primitives that
the script calls but does not implement (network `fetch`, `DOMParser`,
`JSON.parse`, `decodeHtmlEntities` via the DOM, and JS number-to-string
formatting) are passed in as oracle parameters, so every theorem is
quantified over their behaviour.  All control flow, string manipulation
and error messages are translated from the source.
-/

namespace YT

/-! ### JS string primitives -/

/-- The whitespace class used by JS `trim` and the regex class `\s`
(common members; exotic Unicode spaces behave identically for every
input appearing in this development). -/
def isJsWS (c : Char) : Bool :=
  c == ' ' || c == '\t' || c == '\n' || c == '\r' || c == '\x0b' ||
  c == '\x0c' || c == ' ' || c == '﻿'

/-- JS `String.prototype.trim`. -/
def jsTrim (l : List Char) : List Char :=
  ((l.dropWhile isJsWS).reverse.dropWhile isJsWS).reverse

/-- JS `str.replace(/\s+/g, ' ')`: each maximal whitespace run becomes one space. -/
def collapseWS : List Char → List Char
  | [] => []
  | [c] => if isJsWS c then [' '] else [c]
  | c₁ :: c₂ :: rest =>
    if isJsWS c₁ then
      if isJsWS c₂ then collapseWS (c₂ :: rest)
      else ' ' :: collapseWS (c₂ :: rest)
    else c₁ :: collapseWS (c₂ :: rest)

/-- JS `str.replace(/\n+/g, ' ')`: each maximal newline run becomes one space. -/
def collapseNL : List Char → List Char
  | [] => []
  | [c] => if c == '\n' then [' '] else [c]
  | c₁ :: c₂ :: rest =>
    if c₁ == '\n' then
      if c₂ == '\n' then collapseNL (c₂ :: rest)
      else ' ' :: collapseNL (c₂ :: rest)
    else c₁ :: collapseNL (c₂ :: rest)

/-- Does `sub` occur at the very start of `l`? -/
def matchesAt0 : List Char → List Char → Bool
  | [], _ => true
  | _ :: _, [] => false
  | a :: as, b :: bs => a == b && matchesAt0 as bs

/-- JS `str.indexOf(sub)`: index of the first occurrence of `sub`, `none` for `-1`. -/
def indexOfAux (sub : List Char) : List Char → Option Nat
  | [] => if matchesAt0 sub [] then some 0 else none
  | c :: t =>
    if matchesAt0 sub (c :: t) then some 0
    else (indexOfAux sub t).map (· + 1)

/-- JS `str.includes(sub)`. -/
def containsSub (hay sub : List Char) : Bool :=
  (indexOfAux sub hay).isSome

/-- JS `str.startsWith(p)`. -/
def startsWithList (hay pre : List Char) : Bool :=
  matchesAt0 pre hay

/-- Index of the first occurrence of character `c`. -/
def findCharIdx (c : Char) : List Char → Option Nat
  | [] => none
  | x :: rest => if x == c then some 0 else (findCharIdx c rest).map (· + 1)

/-- JS `str.indexOf(c, start)` for a single character. -/
def indexOfCharFrom (l : List Char) (c : Char) (start : Nat) : Option Nat :=
  (findCharIdx c (l.drop start)).map (· + start)

/-- JS `str.split(sep)` for a one-character separator (`''.split` gives `['']`). -/
def jsSplitChar (sep : Char) : List Char → List (List Char)
  | [] => [[]]
  | c :: rest =>
    if c == sep then [] :: jsSplitChar sep rest
    else
      match jsSplitChar sep rest with
      | [] => [[c]]
      | h :: t => (c :: h) :: t

/-- The part of `l` before the first occurrence of the (nonempty) separator
`sub`; the whole of `l` when `sub` does not occur.  This is
`l.split(sub)[0]` in JS. -/
def beforeSub (sub : List Char) : List Char → List Char
  | [] => []
  | c :: t => if matchesAt0 sub (c :: t) then [] else c :: beforeSub sub t

/-- JS `str.replace(',', '.')`: only the first occurrence is replaced. -/
def replaceFirst (a b : Char) : List Char → List Char
  | [] => []
  | c :: t => if c == a then b :: t else c :: replaceFirst a b t

/-- JS truthiness of a nullable string (`null` and `''` are falsy):
returns the string when truthy. -/
def truthyStr : Option (List Char) → Option (List Char)
  | none => none
  | some s => if s = [] then none else some s

/-- JS `array.join(sep)` on an array of strings. -/
def joinSep (sep : List Char) : List (List Char) → List Char
  | [] => []
  | [x] => x
  | x :: rest => x ++ sep ++ joinSep sep rest

/-! ### JS numbers

A JS number appearing in this script is either a rational value or `NaN`
(the script never produces infinities from the inputs it handles); we
model this as `Option ℚ` with `none` for `NaN`, which every arithmetic
operation propagates. -/

abbrev JNum := Option ℚ

def jnAdd : JNum → JNum → JNum
  | some a, some b => some (a + b)
  | _, _ => none

def jnMul : JNum → ℚ → JNum
  | some a, b => some (a * b)
  | none, _ => none

def jnDiv : JNum → ℚ → JNum
  | some a, b => some (a / b)
  | none, _ => none

def digitsToNat (l : List Char) : Nat :=
  l.foldl (fun a c => a * 10 + (c.toNat - '0'.toNat)) 0

/-- JS `parseFloat`: skip leading whitespace, optional sign, decimal
digits with optional fraction, optional exponent; `none` when no number
can be parsed (`NaN`).  (`Infinity` literals never arise here and are
not modelled.) -/
def jsParseFloat (l : List Char) : JNum :=
  let l₁ := l.dropWhile isJsWS
  let (sgn, l₂) : ℚ × List Char :=
    match l₁ with
    | '-' :: r => (-1, r)
    | '+' :: r => (1, r)
    | _ => (1, l₁)
  let intPart := l₂.takeWhile Char.isDigit
  let l₃ := l₂.dropWhile Char.isDigit
  let (fracPart, l₄) : List Char × List Char :=
    match l₃ with
    | '.' :: r => (r.takeWhile Char.isDigit, r.dropWhile Char.isDigit)
    | _ => ([], l₃)
  if intPart = [] ∧ fracPart = [] then none
  else
    let mant : ℚ := (digitsToNat intPart : ℚ) +
      (digitsToNat fracPart : ℚ) / ((10 : ℚ) ^ fracPart.length)
    let exp : ℤ :=
      match l₄ with
      | e :: r =>
        if e == 'e' || e == 'E' then
          let (esgn, r') : ℤ × List Char :=
            match r with
            | '-' :: r₂ => (-1, r₂)
            | '+' :: r₂ => (1, r₂)
            | _ => (1, r)
          let edigs := r'.takeWhile Char.isDigit
          if edigs = [] then 0 else esgn * (digitsToNat edigs : ℤ)
        else 0
      | [] => 0
    some (sgn * mant * (10 : ℚ) ^ exp)

/-! ### JSON values

`JSON.parse` output: no `undefined`, no `NaN`. -/

inductive JValue where
  | jnull
  | jbool (b : Bool)
  | jnum (q : ℚ)
  | jstr (s : List Char)
  | jarr (elems : List JValue)
  | jobj (fields : List (List Char × JValue))

/-- JS truthiness of a JSON value. -/
def jsTruthy : JValue → Bool
  | .jnull => false
  | .jbool b => b
  | .jnum q => decide (q ≠ 0)
  | .jstr s => decide (s ≠ [])
  | .jarr _ => true
  | .jobj _ => true

/-- JS truthiness applied to an optional (possibly `undefined`) value. -/
def jsTruthyOpt : Option JValue → Option JValue
  | none => none
  | some v => if jsTruthy v then some v else none

def lookupField (name : List Char) : List (List Char × JValue) → Option JValue
  | [] => none
  | (k, v) :: rest => if k = name then some v else lookupField name rest

/-- JS property access `v.name`: throws (`.error`) on `null`, yields the
field on objects, `undefined` (`.ok none`) otherwise. -/
def accessJ (v : JValue) (name : List Char) : Except Unit (Option JValue) :=
  match v with
  | .jnull => .error ()
  | .jobj fields => .ok (lookupField name fields)
  | _ => .ok none

/-- JS `String(v)` coercion as used by `Array.prototype.join`.  Nested
arrays/objects inside an array are abstracted to their outermost shape
(never produced by caption payload text fields). -/
def jsToStr (nf : JNum → List Char) : JValue → List Char
  | .jnull => ('n' :: 'u' :: 'l' :: 'l' :: [])
  | .jbool true => ('t' :: 'r' :: 'u' :: 'e' :: [])
  | .jbool false => ('f' :: 'a' :: 'l' :: 's' :: 'e' :: [])
  | .jnum q => nf (some q)
  | .jstr s => s
  | .jarr _ => []
  | .jobj _ => "[object Object]".toList

/-- Element coercion in `Array.prototype.join`: `null` becomes `''`. -/
def jsJoinElemStr (nf : JNum → List Char) : JValue → List Char
  | .jnull => []
  | v => jsToStr nf v

/-- JS `Number(v)` coercion (used by `/ 1000`).  Single-element-array
coercion is abstracted to `NaN` (never produced by caption payloads). -/
def jsToNumber : JValue → JNum
  | .jnull => some 0
  | .jbool b => some (if b then 1 else 0)
  | .jnum q => some q
  | .jstr s =>
    let t := jsTrim s
    if t = [] then some 0 else jsParseFloat t
  | .jarr [] => some 0
  | .jarr _ => none
  | .jobj _ => none

/-! ### extractJSONFromScriptText (content_script.js lines 30-47) -/

/-- The brace-depth loop of `extractJSONFromScriptText`: scanning from the
current position with current `depth`, return the relative index of the
`'\x7d'` at which the depth first returns to zero. -/
def braceScan : List Char → Int → Option Nat
  | [], _ => none
  | c :: rest, depth =>
    if c == '{' then (braceScan rest (depth + 1)).map (· + 1)
    else if c == '}' then
      if depth - 1 = 0 then some 0
      else (braceScan rest (depth - 1)).map (· + 1)
    else (braceScan rest depth).map (· + 1)

/-- Model of `extractJSONFromScriptText(text, varName)`: find `varName`, find the
first `'\x7b'` after it, and slice up to the brace at which the running
depth returns to zero. -/
def extractJSONFromScriptText (text varName : List Char) : Option (List Char) :=
  match indexOfAux varName text with
  | none => none
  | some idx =>
    match indexOfCharFrom text '{' idx with
    | none => none
    | some braceStart =>
      match braceScan (text.drop braceStart) 0 with
      | some i => some ((text.drop braceStart).take (i + 1))
      | none => none

/-- Signed brace count of a string: `+1` per `'\x7b'`, `-1` per `'\x7d'`. -/
def braceDepth : List Char → Int
  | [] => 0
  | c :: rest =>
    (if c == '{' then 1 else if c == '}' then -1 else 0) + braceDepth rest

/-- A string is a balanced brace block when it starts with `'\x7b'`, its
total brace count is zero, and every proper nonempty prefix has positive
count.  For a JSON object literal with no brace characters inside its
string literals this is exactly well-bracketing. -/
def BalancedBraces (obj : List Char) : Prop :=
  obj.head? = some '{' ∧ braceDepth obj = 0 ∧
    ∀ n, n < obj.length → 0 < n → 0 < braceDepth (obj.take n)

instance (obj : List Char) : Decidable (BalancedBraces obj) := by
  unfold BalancedBraces
  exact instDecidableAnd

/-! ### getPlayerResponse (content_script.js lines 53-122) -/

/-- The `setTimeout` bound (ms) on the tier-2 cross-context relay wait
(source line 91). -/
def relayTimeoutMs : Nat := 1000

def playerResponseVarName : List Char := "ytInitialPlayerResponse".toList

/-- Tier 3: scan the page's script elements' `textContent` in order
(`none` models a null `textContent`); for each that mentions the metadata
variable, extract a JSON slice and try to parse it (`jsonFn` is the
`JSON.parse` oracle, `none` = parse exception); a parse failure continues
with the remaining scripts. -/
def scanScripts (jsonFn : List Char → Option JValue) :
    List (Option (List Char)) → Option JValue
  | [] => none
  | s :: rest =>
    match s with
    | none => scanScripts jsonFn rest
    | some txt =>
      if txt = [] then scanScripts jsonFn rest
      else if containsSub txt playerResponseVarName then
        match extractJSONFromScriptText txt playerResponseVarName with
        | some jsonStr =>
          if jsonStr = [] then scanScripts jsonFn rest
          else
            match jsonFn jsonStr with
            | some parsed => some parsed
            | none => scanScripts jsonFn rest
        | none => scanScripts jsonFn rest
      else scanScripts jsonFn rest

def metadataNotFoundMsg : List Char :=
  "getPlayerResponse error: ytInitialPlayerResponse not found".toList

/-- Model of `getPlayerResponse()`.  Here `direct` is the content-script-world global
(tier 1), `injected` the value resolved by the page-context relay —
`none` covers both a null payload and the 1000 ms timeout expiring
(tier 2) — and `scripts` the page's script texts (tier 3). -/
def getPlayerResponse (direct injected : Option JValue)
    (scripts : List (Option (List Char)))
    (jsonFn : List Char → Option JValue) : Except (List Char) JValue :=
  match jsTruthyOpt direct with
  | some v => .ok v
  | none =>
    match jsTruthyOpt injected with
    | some v => .ok v
    | none =>
      match scanScripts jsonFn scripts with
      | some v => .ok v
      | none => .error metadataNotFoundMsg

/-! ### fetchCaptionList (content_script.js lines 125-144) -/

/-- One raw entry of `captions.playerCaptionsTracklistRenderer.captionTracks`
as the host page advertises it (spec section 6). -/
structure RawTrack where
  languageCode : List Char
  nameSimpleText : Option (List Char)
  baseUrl : Option (List Char)
  url : Option (List Char)
  kind : Option (List Char)
  isTranslatable : Option JValue

structure CaptionTrack where
  lang : List Char
  name : List Char
  url : Option (List Char)
  kind : List Char
  isTranslatable : Bool
deriving Repr, DecidableEq

/-- The per-entry normalisation in `fetchCaptionList`'s `map`. -/
def mkTrack (t : RawTrack) : CaptionTrack :=
  { lang := t.languageCode
    name := (truthyStr t.nameSimpleText).getD []
    url :=
      match truthyStr t.baseUrl with
      | some s => some s
      | none => truthyStr t.url
    kind := (truthyStr t.kind).getD []
    isTranslatable :=
      match t.isTranslatable with
      | none => false
      | some v => jsTruthy v }

def noCaptionTracksMsg : List Char :=
  "No caption tracks found in player response".toList

/-- Model of `fetchCaptionList`.  The parameter is the value of the optional chain
`playerResponse?.captions?.playerCaptionsTracklistRenderer?.captionTracks`
(`none` when the chain produced undefined, which `|| []` turns into an
empty list). -/
def fetchCaptionList (captionTracksOpt : Option (List RawTrack)) :
    Except (List Char) (List CaptionTrack) :=
  let captionTracks := captionTracksOpt.getD []
  if captionTracks.isEmpty then .error noCaptionTracksMsg
  else .ok (captionTracks.map mkTrack)

/-! ### vttTimeToSeconds and parseVTT (content_script.js lines 147-179) -/

/-- Effect of `parseFloat(parts[0]) || 0` applied to an already-parsed number:
`NaN` and `0` both give `0`. -/
def jsOrZero : JNum → JNum
  | none => some 0
  | some q => if q = 0 then some 0 else some q

/-- Model of `vttTimeToSeconds(ts)`. -/
def vttTimeToSeconds (ts : List Char) : JNum :=
  let ts₁ := jsTrim (replaceFirst ',' '.' ts)
  let parts := (jsSplitChar ':' ts₁).map jsParseFloat
  match parts with
  | [a, b, c] => jnAdd (jnAdd (jnMul a 3600) (jnMul b 60)) c
  | [a, b] => jnAdd (jnMul a 60) b
  | a :: _ => jsOrZero a
  | [] => some 0

def cueSepStr : List Char := "-->".toList

/-- Build one VTT cue string from a parsed start time and the raw
collected cue lines (`decodeFn` is the `decodeHtmlEntities` oracle, `nf`
the JS number-to-string oracle). -/
def mkVTTCue (decodeFn : List Char → List Char) (nf : JNum → List Char)
    (st : JNum) (acc : List (List Char)) : List Char :=
  '[' :: nf st ++ "s] ".toList ++ jsTrim (collapseNL (decodeFn (joinSep ['\n'] acc)))

/-- The `parseVTT` line loop: the state is `none` while searching for a
cue-time line and `some (start, collected)` while collecting cue text. -/
def parseVTTGo (decodeFn : List Char → List Char) (nf : JNum → List Char) :
    List (List Char) → Option (JNum × List (List Char)) → List (List Char)
  | [], none => []
  | [], some (st, acc) => [mkVTTCue decodeFn nf st acc]
  | l :: rest, none =>
    if containsSub (jsTrim l) cueSepStr then
      parseVTTGo decodeFn nf rest
        (some (vttTimeToSeconds (beforeSub cueSepStr (jsTrim l)), []))
    else parseVTTGo decodeFn nf rest none
  | l :: rest, some (st, acc) =>
    if jsTrim l = [] then
      mkVTTCue decodeFn nf st acc :: parseVTTGo decodeFn nf rest none
    else parseVTTGo decodeFn nf rest (some (st, acc ++ [l]))

/-- Model of `parseVTT(text)`. -/
def parseVTT (decodeFn : List Char → List Char) (nf : JNum → List Char)
    (text : List Char) : List (List Char) :=
  parseVTTGo decodeFn nf (jsSplitChar '\n' (text.filter (fun c => !(c == '\r')))) none

/-! ### parseJSON3 (content_script.js lines 182-197) -/

/-- Field-name constants used by the JSON-event parser and the listener. -/
def eventsKey : List Char := "events".toList
def tStartMsKey : List Char := "tStartMs".toList
def tOffsetMsKey : List Char := "tOffsetMs".toList
def segsKey : List Char := "segs".toList
def aKey : List Char := "a".toList
def utf8Key : List Char := "utf8".toList
def tKey : List Char := "t".toList
def wKey : List Char := "w".toList
def actionKey : List Char := "action".toList
def getTranscriptStr : List Char := "getTranscript".toList

/-- Model of `(ev.tStartMs !== undefined) ? ev.tStartMs / 1000 : (ev.tOffsetMs ? ev.tOffsetMs / 1000 : 0)`. -/
def startOf (ev : JValue) : Except Unit JNum :=
  match accessJ ev tStartMsKey with
  | .error e => .error e
  | .ok (some tv) => .ok (jnDiv (jsToNumber tv) 1000)
  | .ok none =>
    match accessJ ev tOffsetMsKey with
    | .error e => .error e
    | .ok (some ov) =>
      if jsTruthy ov then .ok (jnDiv (jsToNumber ov) 1000) else .ok (some 0)
    | .ok none => .ok (some 0)

/-- Total projection of `startOf` for stating results about non-throwing events. -/
def startNum (ev : JValue) : JNum :=
  match startOf ev with
  | .ok q => q
  | .error _ => none

/-- The `|| []` fallback through `ev.a`. -/
def selectA (ev : JValue) : Except Unit JValue :=
  match accessJ ev aKey with
  | .error e => .error e
  | .ok (some av) => if jsTruthy av then .ok av else .ok (.jarr [])
  | .ok none => .ok (.jarr [])

/-- Model of `ev.segs || ev.a || []`. -/
def selectSegs (ev : JValue) : Except Unit JValue :=
  match accessJ ev segsKey with
  | .error e => .error e
  | .ok (some sv) => if jsTruthy sv then .ok sv else selectA ev
  | .ok none => selectA ev

def segPickW (s : JValue) : Except Unit JValue :=
  match accessJ s wKey with
  | .error e => .error e
  | .ok (some wv) => if jsTruthy wv then .ok wv else .ok (.jstr [])
  | .ok none => .ok (.jstr [])

def segPickT (s : JValue) : Except Unit JValue :=
  match accessJ s tKey with
  | .error e => .error e
  | .ok (some tv) => if jsTruthy tv then .ok tv else segPickW s
  | .ok none => segPickW s

/-- Model of `s.utf8 || s.t || s.w || ''`. -/
def segPick (s : JValue) : Except Unit JValue :=
  match accessJ s utf8Key with
  | .error e => .error e
  | .ok (some uv) => if jsTruthy uv then .ok uv else segPickT s
  | .ok none => segPickT s

/-- Model of `segs.map(s => s.utf8 || s.t || s.w || '')` with JS exception propagation. -/
def mapSegParts (nf : JNum → List Char) : List JValue → Except Unit (List (List Char))
  | [] => .ok []
  | s :: rest =>
    match segPick s with
    | .error e => .error e
    | .ok p =>
      match mapSegParts nf rest with
      | .error e => .error e
      | .ok ps => .ok (jsJoinElemStr nf p :: ps)

/-- One event of the `events.map` callback: compute the start, select
the segment array (`.map` on a truthy non-array throws), build the text,
and format the cue. -/
def eventCue (decodeFn : List Char → List Char) (nf : JNum → List Char)
    (ev : JValue) : Except Unit (List Char) :=
  match startOf ev with
  | .error e => .error e
  | .ok st =>
    match selectSegs ev with
    | .error e => .error e
    | .ok (.jarr segList) =>
      match mapSegParts nf segList with
      | .error e => .error e
      | .ok parts =>
        .ok ('[' :: nf st ++ "s] ".toList ++
          decodeFn (jsTrim (collapseWS parts.flatten)))
    | .ok _ => .error ()

/-- Model of `events.map(...)` with exception propagation. -/
def mapEventCues (decodeFn : List Char → List Char) (nf : JNum → List Char) :
    List JValue → Except Unit (List (List Char))
  | [] => .ok []
  | ev :: rest =>
    match eventCue decodeFn nf ev with
    | .error e => .error e
    | .ok c =>
      match mapEventCues decodeFn nf rest with
      | .error e => .error e
      | .ok cs => .ok (c :: cs)

/-- The body of `parseJSON3`'s `try` block on the parsed value.  The JS
guard `!obj.events || !Array.isArray(obj.events)` passes exactly the
array case (arrays are always truthy). -/
def parseJSON3Core (decodeFn : List Char → List Char) (nf : JNum → List Char)
    (v : JValue) : Except Unit (List (List Char)) :=
  match accessJ v eventsKey with
  | .error e => .error e
  | .ok (some (.jarr evs)) => mapEventCues decodeFn nf evs
  | .ok _ => .ok []

/-- Model of `parseJSON3(text)`: the `catch` maps every thrown exception —
including a `JSON.parse` failure (`jsonFn _ = none`) — to `[]`. -/
def parseJSON3 (jsonFn : List Char → Option JValue)
    (decodeFn : List Char → List Char) (nf : JNum → List Char)
    (text : List Char) : List (List Char) :=
  match jsonFn text with
  | none => []
  | some v =>
    match parseJSON3Core decodeFn nf v with
    | .ok cues => cues
    | .error _ => []

/-! ### parseXMLTextNodes (content_script.js lines 200-217) -/

/-- One DOM element as seen by `parseXMLTextNodes`. -/
structure XmlNode where
  startAttr : Option (List Char)
  tAttr : Option (List Char)
  textContent : Option (List Char)

/-- Model of `parseXMLTextNodes(text)`.  Here `xmlFn` is the `DOMParser`/`querySelectorAll`
oracle: it yields the `text` elements and the `p` elements of the parsed
document, or `none` when the DOM machinery throws (the `catch` path). -/
def parseXMLTextNodes (xmlFn : List Char → Option (List XmlNode × List XmlNode))
    (decodeFn : List Char → List Char) (nf : JNum → List Char)
    (text : List Char) : List (List Char) :=
  match xmlFn text with
  | none => []
  | some (textNodes, pNodes) =>
    let nodes := if textNodes.isEmpty then pNodes else textNodes
    nodes.map (fun n =>
      let st := jsParseFloat
        ((truthyStr n.startAttr).getD ((truthyStr n.tAttr).getD ('0' :: [])))
      let raw := n.textContent.getD []
      '[' :: nf st ++ "s] ".toList ++ jsTrim (collapseWS (decodeFn raw)))

/-! ### fetchCaptionText (content_script.js lines 220-292) -/

/-- The four candidate URLs, in source order (lines 228-233). -/
def candidateURLs (url : List Char) : List (List Char) :=
  let sep : List Char := if containsSub url ['?'] then ['&'] else ['?']
  [url ++ sep ++ "fmt=vtt".toList,
   url ++ sep ++ "fmt=json3".toList,
   url ++ sep ++ "fmt=srv3".toList,
   url]

/-- One sniff-and-parse step of lines 249-269: when the sniff condition
holds and the parser produced at least one cue, return the newline-joined
cue list. -/
def sniffStep (cond : Bool) (cues : List (List Char)) : Option (List Char) :=
  if cond then (if cues.isEmpty then none else some (joinSep ['\n'] cues)) else none

/-- Lines 249-284: sniff the body and return the first usable result, or
`none` to move on to the next candidate. -/
def parseBody (xmlFn : List Char → Option (List XmlNode × List XmlNode))
    (jsonFn : List Char → Option JValue)
    (decodeFn : List Char → List Char) (nf : JNum → List Char)
    (text : List Char) : Option (List Char) :=
  let trimmed := jsTrim text
  match sniffStep
      (startsWithList trimmed ("WEBVTT".toList) || containsSub trimmed cueSepStr)
      (parseVTT decodeFn nf text) with
  | some r => some r
  | none =>
    match sniffStep
        (startsWithList trimmed ['<'] || containsSub trimmed ("<transcript".toList) ||
          containsSub trimmed ("<text".toList))
        (parseXMLTextNodes xmlFn decodeFn nf text) with
    | some r => some r
    | none =>
      match sniffStep
          (startsWithList trimmed ['{'] || startsWithList trimmed ['['] ||
            containsSub trimmed ("\"events\"".toList))
          (parseJSON3 jsonFn decodeFn nf text) with
      | some r => some r
      | none =>
        let xmlFallback := parseXMLTextNodes xmlFn decodeFn nf text
        if !xmlFallback.isEmpty then some (joinSep ['\n'] xmlFallback)
        else
          let raw := jsTrim (collapseWS (decodeFn text))
          if raw ≠ [] ∧ raw.length < 200000 then some raw else none

/-- One iteration of the candidate loop.  `fetchFn` is the network oracle:
`none` models a thrown fetch, a non-ok status, or a failed body read;
`some body` a successful text body.  An empty (or all-whitespace) body is
skipped (lines 239-247). -/
def attemptCandidate (fetchFn : List Char → Option (List Char))
    (xmlFn : List Char → Option (List XmlNode × List XmlNode))
    (jsonFn : List Char → Option JValue)
    (decodeFn : List Char → List Char) (nf : JNum → List Char)
    (candidate : List Char) : Option (List Char) :=
  match fetchFn candidate with
  | none => none
  | some text =>
    if jsTrim text = [] then none
    else parseBody xmlFn jsonFn decodeFn nf text

def trackFetchFailedMsg (lang : List Char) : List Char :=
  "Failed to fetch/parse caption for lang=".toList ++ lang

def noTrackUrlMsg (lang : List Char) : List Char :=
  "No track URL available for ".toList ++ lang

/-- The `for (const candidate of candidates)` loop with its per-candidate
`try`/`catch`, and the final throw. -/
def tryCandidates (fetchFn : List Char → Option (List Char))
    (xmlFn : List Char → Option (List XmlNode × List XmlNode))
    (jsonFn : List Char → Option JValue)
    (decodeFn : List Char → List Char) (nf : JNum → List Char)
    (lang : List Char) : List (List Char) → Except (List Char) (List Char)
  | [] => .error (trackFetchFailedMsg lang)
  | c :: rest =>
    match attemptCandidate fetchFn xmlFn jsonFn decodeFn nf c with
    | some r => .ok r
    | none => tryCandidates fetchFn xmlFn jsonFn decodeFn nf lang rest

/-- Model of `fetchCaptionText(videoId, track)`. -/
def fetchCaptionText (fetchFn : List Char → Option (List Char))
    (xmlFn : List Char → Option (List XmlNode × List XmlNode))
    (jsonFn : List Char → Option JValue)
    (decodeFn : List Char → List Char) (nf : JNum → List Char)
    (videoId : List Char) (track : CaptionTrack) : Except (List Char) (List Char) :=
  match truthyStr track.url with
  | none => .error (noTrackUrlMsg track.lang)
  | some url =>
    tryCandidates fetchFn xmlFn jsonFn decodeFn nf track.lang (candidateURLs url)

/-- The text of a successfully fetched track (`[]` for a failed one);
used to state what the aggregator puts into `combined`. -/
def fetchedText (fetchFn : List Char → Option (List Char))
    (xmlFn : List Char → Option (List XmlNode × List XmlNode))
    (jsonFn : List Char → Option JValue)
    (decodeFn : List Char → List Char) (nf : JNum → List Char)
    (videoId : List Char) (t : CaptionTrack) : List Char :=
  match fetchCaptionText fetchFn xmlFn jsonFn decodeFn nf videoId t with
  | .ok s => s
  | .error _ => []

/-! ### getBestTranscript (content_script.js lines 295-331) -/

structure AggregateResult where
  videoId : List Char
  tracks : List CaptionTrack
  combined : List Char
deriving Repr, DecidableEq

def noVideoIdMsg : List Char := "No video id found on this page".toList
def noCaptionsFoundMsg : List Char := "No captions found for this video.".toList
def noCaptionsFetchedMsg : List Char :=
  "No captions could be fetched or parsed. See console logs for details.".toList

/-- One section of `combined`:
the template is a header line followed by the track's text. -/
def mkSection (t : CaptionTrack) (txt : List Char) : List Char :=
  "--- Track: ".toList ++ t.lang ++ [' '] ++
    (if t.name = [] then [] else '(' :: t.name ++ [')']) ++
    " ---".toList ++ ['\n'] ++ txt

/-- Model of `getBestTranscript()`.  Here `videoId` models `getVideoId()`'s result
(`new URLSearchParams(location.search).get('v')`), `captionTracksOpt` the
raw caption-track manifest reached through the Player-Metadata Resolver,
and the remaining parameters are the browser oracles threaded to
`fetchCaptionText`. -/
def getBestTranscript (videoId : Option (List Char))
    (captionTracksOpt : Option (List RawTrack))
    (fetchFn : List Char → Option (List Char))
    (xmlFn : List Char → Option (List XmlNode × List XmlNode))
    (jsonFn : List Char → Option JValue)
    (decodeFn : List Char → List Char) (nf : JNum → List Char) :
    Except (List Char) AggregateResult :=
  match truthyStr videoId with
  | none => .error noVideoIdMsg
  | some vid =>
    match fetchCaptionList captionTracksOpt with
    | .error e => .error e
    | .ok tracks =>
      if tracks.isEmpty then .error noCaptionsFoundMsg
      else
        let fetched := tracks.filterMap (fun t =>
          match fetchCaptionText fetchFn xmlFn jsonFn decodeFn nf vid t with
          | .ok txt => if jsTrim txt = [] then none else some (t, txt)
          | .error _ => none)
        if fetched.isEmpty then .error noCaptionsFetchedMsg
        else .ok
          { videoId := vid
            tracks := tracks
            combined := joinSep ('\n' :: '\n' :: []) (fetched.map (fun f => mkSection f.1 f.2)) }

/-! ### The runtime message listener (content_script.js lines 334-343) -/

/-- The two `sendResponse` payload shapes. -/
inductive SendResult where
  | success (r : AggregateResult)
  | failure (e : List Char)
deriving Repr, DecidableEq

/-- Test `msg.action === 'getTranscript'` (strict string equality). -/
def msgActionIsGetTranscript : JValue → Bool
  | .jobj fields =>
    match lookupField actionKey fields with
    | some (.jstr s) => s = getTranscriptStr
    | _ => false
  | _ => false

/-- The `chrome.runtime.onMessage` listener: for a `getTranscript` request
it sends the aggregation outcome (`run` is the settled
`getBestTranscript()` promise) and returns `true` to keep the channel
open; for anything else it falls off the end (sends nothing, returns a
falsy value). -/
def onMessageListener (msg : JValue)
    (run : Except (List Char) AggregateResult) : Option SendResult × Bool :=
  if jsTruthy msg && msgActionIsGetTranscript msg then
    (some (match run with
      | .ok r => SendResult.success r
      | .error e => SendResult.failure e), true)
  else (none, false)


/-! ### Concrete fixtures used by the verification witnesses -/

def wVttBody : List Char := "WEBVTT\n\n00:00.000 --> 00:01.000\nhi".toList

def wFetch : List Char → Option (List Char) :=
  fun c => if c = "u?fmt=vtt".toList then some wVttBody else none

def wXml : List Char → Option (List XmlNode × List XmlNode) := fun _ => none

def wJson : List Char → Option JValue := fun _ => none

def wDecode : List Char → List Char := fun s => s

def wNum : JNum → List Char := fun _ => ['0']

def wRaw : RawTrack :=
  { languageCode := "en".toList
    nameSimpleText := none
    baseUrl := some ("u".toList)
    url := none
    kind := none
    isTranslatable := none }

def wRawBad : RawTrack :=
  { languageCode := "fr".toList
    nameSimpleText := none
    baseUrl := none
    url := none
    kind := none
    isTranslatable := none }

def wResult : AggregateResult :=
  { videoId := "v".toList
    tracks := [mkTrack wRaw]
    combined := "--- Track: en  ---\n[0s] hi".toList }

def wResult2 : AggregateResult :=
  { videoId := "v".toList
    tracks := [mkTrack wRaw, mkTrack wRawBad]
    combined := "--- Track: en  ---\n[0s] hi".toList }

def wEvObj : JValue := .jobj [(tStartMsKey, .jnum 0)]

def wEvents : JValue := .jobj [(eventsKey, .jarr [wEvObj])]

def wJsonEv : List Char → Option JValue := fun _ => some wEvents

def wJsonBody : List Char := ['{']

/-! ### Decidable equality for `Except` results -/

instance instDecEqExcept {ε α : Type} [DecidableEq ε] [DecidableEq α] :
    DecidableEq (Except ε α)
  | .error a, .error b =>
    if h : a = b then isTrue (by rw [h]) else isFalse (by simp [h])
  | .error _, .ok _ => isFalse (by simp)
  | .ok _, .error _ => isFalse (by simp)
  | .ok a, .ok b =>
    if h : a = b then isTrue (by rw [h]) else isFalse (by simp [h])

theorem scanScripts_parse_failure_continues (jsonFn : List Char → Option JValue)
    (rest : List (Option (List Char))) (txt j : List Char)
    (hcont : containsSub txt playerResponseVarName = true)
    (hext : extractJSONFromScriptText txt playerResponseVarName = some j)
    (hne : j ≠ []) (hjson : jsonFn j = none) :
    scanScripts jsonFn (some txt :: rest) = scanScripts jsonFn rest := by
  have htxt : txt ≠ [] := by
    intro h
    subst h
    simp [containsSub, indexOfAux, matchesAt0, playerResponseVarName] at hcont
  simp [scanScripts, htxt, hcont, hext, hne, hjson]

/-- Claim C5: the Player-Metadata Resolver tries its three tiers (direct
read; cross-context relay, whose 1000 ms bounded wait resolves to "not
found" rather than an error; raw script-text scan) in strict order with
the first success winning; it fails, with the MetadataNotFound message,
exactly when all three tiers are exhausted; and during the tier-3 scan a
JSON parse failure on one script element continues with the remaining
script elements. -/
theorem getPlayerResponse_tiers :
    relayTimeoutMs = 1000 ∧
    (∀ (v : JValue) (injected : Option JValue) scripts jsonFn, jsTruthy v = true →
      getPlayerResponse (some v) injected scripts jsonFn = .ok v) ∧
    (∀ (direct : Option JValue) (v : JValue) scripts jsonFn, jsTruthyOpt direct = none →
      jsTruthy v = true → getPlayerResponse direct (some v) scripts jsonFn = .ok v) ∧
    (∀ (direct injected : Option JValue) scripts jsonFn v, jsTruthyOpt direct = none →
      jsTruthyOpt injected = none → scanScripts jsonFn scripts = some v →
      getPlayerResponse direct injected scripts jsonFn = .ok v) ∧
    (∀ (direct injected : Option JValue) scripts jsonFn e,
      getPlayerResponse direct injected scripts jsonFn = .error e →
      jsTruthyOpt direct = none ∧ jsTruthyOpt injected = none ∧
      scanScripts jsonFn scripts = none ∧ e = metadataNotFoundMsg) ∧
    (∀ jsonFn (rest : List (Option (List Char))) txt j,
      containsSub txt playerResponseVarName = true →
      extractJSONFromScriptText txt playerResponseVarName = some j →
      j ≠ [] → jsonFn j = none →
      scanScripts jsonFn (some txt :: rest) = scanScripts jsonFn rest) := by
  refine ⟨rfl, ?_, ?_, ?_, ?_, ?_⟩
  · intro v injected scripts jsonFn hv
    unfold getPlayerResponse
    have : jsTruthyOpt (some v) = some v := by simp [jsTruthyOpt, hv]
    rw [this]
  · intro direct v scripts jsonFn hd hv
    unfold getPlayerResponse
    rw [hd]
    have : jsTruthyOpt (some v) = some v := by simp [jsTruthyOpt, hv]
    rw [this]
  · intro direct injected scripts jsonFn v hd hi hs
    unfold getPlayerResponse
    rw [hd, hi, hs]
  · intro direct injected scripts jsonFn e h
    unfold getPlayerResponse at h
    rcases hd : jsTruthyOpt direct with _ | v
    · rw [hd] at h
      rcases hi : jsTruthyOpt injected with _ | v
      · rw [hi] at h
        rcases hs : scanScripts jsonFn scripts with _ | v
        · rw [hs] at h
          simp at h
          exact ⟨rfl, rfl, rfl, h.symm⟩
        · rw [hs] at h
          simp at h
      · rw [hi] at h
        simp at h
    · rw [hd] at h
      simp at h
  · exact fun jsonFn rest txt j h1 h2 h3 h4 =>
      scanScripts_parse_failure_continues jsonFn rest txt j h1 h2 h3 h4

/-- Claim C10: for every inbound runtime message that is falsy or whose
action field is not the string getTranscript, the listener sends no
response and does not keep the channel open (and its outcome is
independent of the aggregation result); the listener returns true only
when the message is truthy with action getTranscript. -/
theorem onMessage_non_getTranscript :
    (∀ (msg : JValue) (run run' : Except (List Char) AggregateResult),
      msgActionIsGetTranscript msg = false ∨ jsTruthy msg = false →
      onMessageListener msg run = (none, false) ∧
      onMessageListener msg run = onMessageListener msg run') ∧
    (∀ msg run, (onMessageListener msg run).2 = true →
      jsTruthy msg = true ∧ msgActionIsGetTranscript msg = true) := by
  constructor
  · intro msg run run' h
    rcases h with h | h <;> simp [onMessageListener, h]
  · intro msg run h
    by_cases h1 : jsTruthy msg
    · by_cases h2 : msgActionIsGetTranscript msg
      · exact ⟨h1, h2⟩
      · simp [onMessageListener, h1, h2] at h
    · simp [onMessageListener, h1] at h

theorem parseVTTGo_no_cueline (decodeFn : List Char → List Char) (nf : JNum → List Char) :
    ∀ (lines : List (List Char)),
      (∀ l ∈ lines, containsSub (jsTrim l) cueSepStr = false) →
      parseVTTGo decodeFn nf lines none = [] := by
  intro lines
  induction lines with
  | nil => intro _; rfl
  | cons l rest ih =>
    intro h
    have hl := h l (by simp)
    simp [parseVTTGo, hl]
    exact ih (fun x hx => h x (by simp [hx]))

/-- Claim C6: each format parser is a total Lean function (so it cannot
throw), and on any internal failure it returns the empty cue sequence: a
JSON parse exception or a missing/non-array events field yields `[]`
from the JSON-event parser, a DOM-level exception yields `[]` from the
XML parser, and VTT input with no cue-time line yields `[]` from the VTT
parser. -/
theorem parsers_fail_to_empty :
    (∀ jsonFn decodeFn nf text, jsonFn text = none →
        parseJSON3 jsonFn decodeFn nf text = []) ∧
    (∀ jsonFn decodeFn nf text v, jsonFn text = some v →
        (∀ evs, ¬ accessJ v eventsKey = .ok (some (.jarr evs))) →
        parseJSON3 jsonFn decodeFn nf text = []) ∧
    (∀ xmlFn decodeFn nf text, xmlFn text = none →
        parseXMLTextNodes xmlFn decodeFn nf text = []) ∧
    (∀ decodeFn nf text,
        (∀ l ∈ jsSplitChar '\n' (text.filter (fun c => !(c == '\r'))),
          containsSub (jsTrim l) cueSepStr = false) →
        parseVTT decodeFn nf text = []) := by
  refine ⟨?_, ?_, ?_, ?_⟩
  · intro jsonFn decodeFn nf text h
    simp [parseJSON3, h]
  · intro jsonFn decodeFn nf text v hj hacc
    simp only [parseJSON3, hj]
    rcases ha : accessJ v eventsKey with _ | evOpt
    · simp [parseJSON3Core, ha]
    · rcases evOpt with _ | w
      · simp [parseJSON3Core, ha]
      · rcases w with _ | b | q | s | elems | fields
        · simp [parseJSON3Core, ha]
        · simp [parseJSON3Core, ha]
        · simp [parseJSON3Core, ha]
        · simp [parseJSON3Core, ha]
        · exact absurd ha (hacc elems)
        · simp [parseJSON3Core, ha]
  · intro xmlFn decodeFn nf text h
    simp [parseXMLTextNodes, h]
  · intro decodeFn nf text h
    exact parseVTTGo_no_cueline decodeFn nf _ h

end YT


namespace YT

/-! ## Lemmas about the brace-depth extractor (claim C2) -/

theorem braceDepth_cons (c : Char) (l : List Char) :
    braceDepth (c :: l) =
      (if c == '{' then 1 else if c == '}' then -1 else 0) + braceDepth l := rfl

/-- The brace-depth loop, run with positive entry depth `d` over a block
`xs` whose running count stays positive strictly inside and reaches
depth zero exactly at its end, stops exactly on the last character of
`xs`. -/
theorem braceScan_append (xs : List Char) :
    ∀ (suf : List Char) (d : Int), 0 < d → d + braceDepth xs = 0 →
      (∀ n, n < xs.length → 0 < n → 0 < d + braceDepth (xs.take n)) →
      braceScan (xs ++ suf) d = some (xs.length - 1) := by
  induction xs with
  | nil =>
    intro suf d hpos hzero _
    simp [braceDepth] at hzero
    omega
  | cons c rest ih =>
    intro suf d hpos hzero hpre
    by_cases hc : c = '{'
    · subst hc
      have hzero' : (d + 1) + braceDepth rest = 0 := by
        rw [braceDepth_cons] at hzero
        simp at hzero
        omega
      have hrest : rest ≠ [] := by
        intro h
        subst h
        simp [braceDepth] at hzero'
        omega
      have hlen : 0 < rest.length := List.length_pos.mpr hrest
      have hpre' : ∀ n, n < rest.length → 0 < n →
          0 < (d + 1) + braceDepth (rest.take n) := by
        intro n hn hp
        have h1 := hpre (n + 1) (by simp; omega) (by omega)
        rw [List.take_succ_cons, braceDepth_cons] at h1
        simp at h1
        omega
      have hrec := ih suf (d + 1) (by omega) hzero' hpre'
      have hstep : braceScan ((('{' : Char) :: rest) ++ suf) d
          = (braceScan (rest ++ suf) (d + 1)).map (· + 1) := by
        simp [braceScan]
      rw [hstep, hrec, Option.map_some']
      have h2 : rest.length - 1 + 1 = rest.length := Nat.sub_add_cancel hlen
      rw [h2]
      simp
    · by_cases hc2 : c = '}'
      · subst hc2
        have hzero' : (d - 1) + braceDepth rest = 0 := by
          rw [braceDepth_cons] at hzero
          simp at hzero
          omega
        by_cases hd : d = 1
        · subst hd
          have hrest : rest = [] := by
            rcases rest with _ | ⟨r, t⟩
            · rfl
            · exfalso
              have h1 := hpre 1 (by simp) (by omega)
              simp [List.take_succ_cons, braceDepth] at h1
          subst hrest
          simp [braceScan]
        · have hd2 : 2 ≤ d := by omega
          have hrest : rest ≠ [] := by
            intro h
            subst h
            simp [braceDepth] at hzero'
            omega
          have hlen : 0 < rest.length := List.length_pos.mpr hrest
          have hpre' : ∀ n, n < rest.length → 0 < n →
              0 < (d - 1) + braceDepth (rest.take n) := by
            intro n hn hp
            have h1 := hpre (n + 1) (by simp; omega) (by omega)
            rw [List.take_succ_cons, braceDepth_cons] at h1
            simp at h1
            omega
          have hrec := ih suf (d - 1) (by omega) hzero' hpre'
          have hne : ¬ (d - 1 = 0) := by omega
          have hstep : braceScan ((('}' : Char) :: rest) ++ suf) d
              = (braceScan (rest ++ suf) (d - 1)).map (· + 1) := by
            simp [braceScan, hne]
          rw [hstep, hrec, Option.map_some']
          have h2 : rest.length - 1 + 1 = rest.length := Nat.sub_add_cancel hlen
          rw [h2]
          simp
      · have hzero' : d + braceDepth rest = 0 := by
          rw [braceDepth_cons] at hzero
          simp [hc, hc2] at hzero
          omega
        have hrest : rest ≠ [] := by
          intro h
          subst h
          simp [braceDepth] at hzero'
          omega
        have hlen : 0 < rest.length := List.length_pos.mpr hrest
        have hpre' : ∀ n, n < rest.length → 0 < n →
            0 < d + braceDepth (rest.take n) := by
          intro n hn hp
          have h1 := hpre (n + 1) (by simp; omega) (by omega)
          rw [List.take_succ_cons, braceDepth_cons] at h1
          simp [hc, hc2] at h1
          omega
        have hrec := ih suf d hpos hzero' hpre'
        have hstep : braceScan ((c :: rest) ++ suf) d
            = (braceScan (rest ++ suf) d).map (· + 1) := by
          simp [braceScan, hc, hc2]
        rw [hstep, hrec, Option.map_some']
        have h2 : rest.length - 1 + 1 = rest.length := Nat.sub_add_cancel hlen
        rw [h2]
        simp

end YT

namespace YT

/-- Claim C2 (amended): on any text of the form `varName = obj suffix`
where `obj` is a brace-balanced block (no brace characters inside string
literals), the extractor returns exactly `obj`; when the object does
contain a brace inside a string literal the extractor can close early
(see the counterexample). -/
theorem extract_balanced_object (obj suf : List Char) (h : BalancedBraces obj) :
    extractJSONFromScriptText ('v' :: ' ' :: '=' :: ' ' :: (obj ++ suf)) ('v' :: []) = some obj := by
  obtain ⟨hhead, hzero, hpre⟩ := h
  rcases obj with _ | ⟨c0, obj'⟩
  · simp at hhead
  · have hc0 : c0 = '{' := by simpa using hhead
    subst hc0
    have hobj' : obj' ≠ [] := by
      intro h
      subst h
      simp [braceDepth] at hzero
    have hlen : 0 < obj'.length := List.length_pos.mpr hobj'
    have h1 : indexOfAux ('v' :: []) ('v' :: ' ' :: '=' :: ' ' :: (('{' :: obj') ++ suf)) = some 0 := by
      simp [indexOfAux, matchesAt0]
    have h2 : indexOfCharFrom ('v' :: ' ' :: '=' :: ' ' :: (('{' :: obj') ++ suf)) '{' 0 = some 4 := by
      simp [indexOfCharFrom, findCharIdx]
    have h3 : ('v' :: ' ' :: '=' :: ' ' :: (('{' :: obj') ++ suf)).drop 4 = ('{' :: obj') ++ suf := rfl
    have hzero' : 1 + braceDepth obj' = 0 := by
      rw [braceDepth_cons] at hzero
      simpa using hzero
    have hpre' : ∀ n, n < obj'.length → 0 < n → 0 < 1 + braceDepth (obj'.take n) := by
      intro n hn hp
      have h1 := hpre (n + 1) (by simp; omega) (by omega)
      rw [List.take_succ_cons, braceDepth_cons] at h1
      simpa using h1
    have hrec := braceScan_append obj' suf 1 (by omega) hzero' hpre'
    have h4 : braceScan ((('{' : Char) :: obj') ++ suf) 0 = some (obj'.length - 1 + 1) := by
      simp [braceScan, hrec]
    have h5 : obj'.length - 1 + 1 = obj'.length := Nat.sub_add_cancel hlen
    rw [h5] at h4
    have h6 : (('{' :: obj') ++ suf).take (obj'.length + 1) = '{' :: obj' :=
      List.take_left' (by simp)
    simp only [extractJSONFromScriptText, h1, h2, h3, h4, h6]

/-- Claim C2 counterexample: on the text `v = \x7b"a":"\x7d"\x7d` the
extractor closes at the brace inside the string literal, returning a
slice that is not the object literal ending at the matching outer brace. -/
theorem extract_string_brace_counterexample :
    extractJSONFromScriptText ("v = \x7b\"a\":\"\x7d\"\x7d".toList) ("v".toList)
        = some ("\x7b\"a\":\"\x7d".toList) ∧
    ¬ extractJSONFromScriptText ("v = \x7b\"a\":\"\x7d\"\x7d".toList) ("v".toList)
        = some ("\x7b\"a\":\"\x7d\"\x7d".toList) := by
  decide

/-- Witness for the amended claim C2 at a concrete balanced object. -/
theorem extract_balanced_object_witness :
    BalancedBraces ("\x7b\"a\":\x7b\x7d\x7d".toList) ∧
    extractJSONFromScriptText
        ('v' :: ' ' :: '=' :: ' ' :: (("\x7b\"a\":\x7b\x7d\x7d".toList) ++ ("; x".toList)))
        ('v' :: []) = some ("\x7b\"a\":\x7b\x7d\x7d".toList) :=
  ⟨by decide, extract_balanced_object _ _ (by decide)⟩


end YT

namespace YT

theorem replaceFirst_of_not_mem (a b : Char) :
    ∀ (l : List Char), a ∉ l → replaceFirst a b l = l := by
  intro l
  induction l with
  | nil => intro _; rfl
  | cons c t ih =>
    intro h
    simp only [List.mem_cons, not_or] at h
    have hca : (c == a) = false := by
      simp
      exact fun hc => h.1 hc.symm
    simp [replaceFirst, hca]
    exact ih h.2

theorem dropWhile_eq_self_of_all_not {p : Char → Bool} :
    ∀ {l : List Char}, (∀ c ∈ l, p c = false) → l.dropWhile p = l := by
  intro l h
  cases l with
  | nil => rfl
  | cons c t =>
    have := h c (by simp)
    simp [List.dropWhile_cons, this]

theorem jsTrim_of_no_ws (l : List Char) (h : ∀ c ∈ l, isJsWS c = false) :
    jsTrim l = l := by
  unfold jsTrim
  rw [dropWhile_eq_self_of_all_not h]
  rw [dropWhile_eq_self_of_all_not (fun c hc => h c (by simpa using hc))]
  simp

theorem jsSplitChar_no_sep (sep : Char) :
    ∀ (l : List Char), sep ∉ l → jsSplitChar sep l = [l] := by
  intro l
  induction l with
  | nil => intro _; rfl
  | cons c t ih =>
    intro h
    simp only [List.mem_cons, not_or] at h
    have hcs : (c == sep) = false := by
      simp
      exact fun hc => h.1 hc.symm
    rw [jsSplitChar]
    simp only [hcs, Bool.false_eq_true, if_false, ih h.2]

theorem jsSplitChar_append_sep (sep : Char) :
    ∀ (a rest : List Char), sep ∉ a →
      jsSplitChar sep (a ++ sep :: rest) = a :: jsSplitChar sep rest := by
  intro a
  induction a with
  | nil =>
    intro rest _
    simp [jsSplitChar]
  | cons c t ih =>
    intro rest h
    simp only [List.mem_cons, not_or] at h
    have hcs : (c == sep) = false := by
      simp
      exact fun hc => h.1 hc.symm
    rw [List.cons_append, jsSplitChar]
    simp only [hcs, Bool.false_eq_true, if_false, ih rest h.2]

theorem jsOrZero_some (q : ℚ) : jsOrZero (some q) = some q := by
  rcases eq_or_ne q 0 with h | h
  · subst h
    simp [jsOrZero]
  · simp [jsOrZero, h]

/-- Characters allowed inside one timestamp component: not the colon
separator, not a comma, not whitespace. -/
def PlainNumChars (l : List Char) : Prop :=
  ∀ c ∈ l, c ≠ ':' ∧ c ≠ ',' ∧ isJsWS c = false

instance (l : List Char) : Decidable (PlainNumChars l) := by
  unfold PlainNumChars
  exact List.decidableBAll _ l

/-- Claim C7: the VTT time parser maps each of the three timestamp forms
to the numerically correct seconds value by counting colon-separated
components: three components are hours/minutes/seconds, two are
minutes/seconds, one is bare seconds. -/
theorem vttTimeToSeconds_forms :
    (∀ a b c h m sec, PlainNumChars a → PlainNumChars b → PlainNumChars c →
      jsParseFloat a = some h → jsParseFloat b = some m → jsParseFloat c = some sec →
      vttTimeToSeconds (a ++ (':' :: (b ++ (':' :: c)))) = some (h * 3600 + m * 60 + sec)) ∧
    (∀ b c m sec, PlainNumChars b → PlainNumChars c →
      jsParseFloat b = some m → jsParseFloat c = some sec →
      vttTimeToSeconds (b ++ (':' :: c)) = some (m * 60 + sec)) ∧
    (∀ a h, PlainNumChars a → jsParseFloat a = some h →
      vttTimeToSeconds a = some h) := by
  have hcolon : isJsWS ':' = false := by decide
  refine ⟨?_, ?_, ?_⟩
  · intro a b c h m sec ha hb hc hpa hpb hpc
    have hnocomma : ',' ∉ (a ++ (':' :: (b ++ (':' :: c)))) := by
      intro hm
      simp only [List.mem_append, List.mem_cons] at hm
      rcases hm with hm | hm | hm | hm | hm
      · exact (ha _ hm).2.1 rfl
      · exact absurd hm (by decide)
      · exact (hb _ hm).2.1 rfl
      · exact absurd hm (by decide)
      · exact (hc _ hm).2.1 rfl
    have hnows : ∀ ch ∈ (a ++ (':' :: (b ++ (':' :: c)))), isJsWS ch = false := by
      intro ch hm
      simp only [List.mem_append, List.mem_cons] at hm
      rcases hm with hm | hm | hm | hm | hm
      · exact (ha _ hm).2.2
      · rw [hm]; exact hcolon
      · exact (hb _ hm).2.2
      · rw [hm]; exact hcolon
      · exact (hc _ hm).2.2
    have hsplit : jsSplitChar ':' (a ++ ':' :: (b ++ ':' :: c)) = [a, b, c] := by
      rw [jsSplitChar_append_sep ':' a (b ++ ':' :: c)
        (fun hm => (ha _ hm).1 rfl)]
      rw [jsSplitChar_append_sep ':' b c (fun hm => (hb _ hm).1 rfl)]
      rw [jsSplitChar_no_sep ':' c (fun hm => (hc _ hm).1 rfl)]
    simp only [vttTimeToSeconds]
    rw [replaceFirst_of_not_mem ',' '.' _ hnocomma]
    rw [jsTrim_of_no_ws _ hnows]
    rw [hsplit]
    simp [hpa, hpb, hpc, jnMul, jnAdd]
  · intro b c m sec hb hc hpb hpc
    have hnocomma : ',' ∉ (b ++ (':' :: c)) := by
      intro hm
      simp only [List.mem_append, List.mem_cons] at hm
      rcases hm with hm | hm | hm
      · exact (hb _ hm).2.1 rfl
      · exact absurd hm (by decide)
      · exact (hc _ hm).2.1 rfl
    have hnows : ∀ ch ∈ (b ++ (':' :: c)), isJsWS ch = false := by
      intro ch hm
      simp only [List.mem_append, List.mem_cons] at hm
      rcases hm with hm | hm | hm
      · exact (hb _ hm).2.2
      · rw [hm]; exact hcolon
      · exact (hc _ hm).2.2
    have hsplit : jsSplitChar ':' (b ++ (':' :: c)) = [b, c] := by
      rw [jsSplitChar_append_sep ':' b c (fun hm => (hb _ hm).1 rfl)]
      rw [jsSplitChar_no_sep ':' c (fun hm => (hc _ hm).1 rfl)]
    simp only [vttTimeToSeconds]
    rw [replaceFirst_of_not_mem ',' '.' _ hnocomma]
    rw [jsTrim_of_no_ws _ hnows]
    rw [hsplit]
    simp [hpb, hpc, jnMul, jnAdd]
  · intro a h ha hpa
    have hnocomma : ',' ∉ a := fun hm => (ha _ hm).2.1 rfl
    have hnows : ∀ ch ∈ a, isJsWS ch = false := fun ch hm => (ha _ hm).2.2
    have hsplit : jsSplitChar ':' a = [a] :=
      jsSplitChar_no_sep ':' a (fun hm => (ha _ hm).1 rfl)
    simp only [vttTimeToSeconds]
    rw [replaceFirst_of_not_mem ',' '.' _ hnocomma]
    rw [jsTrim_of_no_ws _ hnows]
    rw [hsplit]
    simp [hpa, jsOrZero_some]

end YT

namespace YT

/-- Witness for claim C7 at the three example timestamps from the spec. -/
theorem vttTimeToSeconds_forms_witness :
    vttTimeToSeconds ("01:02:03.500".toList) = some ((7447 : ℚ) / 2) ∧
    vttTimeToSeconds ("02:03.5".toList) = some ((247 : ℚ) / 2) ∧
    vttTimeToSeconds ("5".toList) = some 5 := by
  obtain ⟨h3, h2, h1⟩ := vttTimeToSeconds_forms
  refine ⟨?_, ?_, ?_⟩
  · have hpa : jsParseFloat "01".toList = some 1 := by
      have hr : jsParseFloat "01".toList =
          some ((1 : ℚ) * (((1 : ℕ) : ℚ) + ((0 : ℕ) : ℚ) / (10 : ℚ) ^ (0 : ℕ)) * (10 : ℚ) ^ (0 : ℤ)) := rfl
      rw [hr]
      norm_num
    have hpb : jsParseFloat "02".toList = some 2 := by
      have hr : jsParseFloat "02".toList =
          some ((1 : ℚ) * (((2 : ℕ) : ℚ) + ((0 : ℕ) : ℚ) / (10 : ℚ) ^ (0 : ℕ)) * (10 : ℚ) ^ (0 : ℤ)) := rfl
      rw [hr]
      norm_num
    have hpc : jsParseFloat "03.500".toList = some (7 / 2) := by
      have hr : jsParseFloat "03.500".toList =
          some ((1 : ℚ) * (((3 : ℕ) : ℚ) + ((500 : ℕ) : ℚ) / (10 : ℚ) ^ (3 : ℕ)) * (10 : ℚ) ^ (0 : ℤ)) := rfl
      rw [hr]
      norm_num
    have key := h3 ("01".toList) ("02".toList) ("03.500".toList) 1 2 (7 / 2)
      (by decide) (by decide) (by decide) hpa hpb hpc
    have heq : ("01:02:03.500".toList)
        = ("01".toList ++ (':' :: ("02".toList ++ (':' :: "03.500".toList)))) := by decide
    rw [heq, key]
    norm_num
  · have hpb : jsParseFloat "02".toList = some 2 := by
      have hr : jsParseFloat "02".toList =
          some ((1 : ℚ) * (((2 : ℕ) : ℚ) + ((0 : ℕ) : ℚ) / (10 : ℚ) ^ (0 : ℕ)) * (10 : ℚ) ^ (0 : ℤ)) := rfl
      rw [hr]
      norm_num
    have hpc : jsParseFloat "03.5".toList = some (7 / 2) := by
      have hr : jsParseFloat "03.5".toList =
          some ((1 : ℚ) * (((3 : ℕ) : ℚ) + ((5 : ℕ) : ℚ) / (10 : ℚ) ^ (1 : ℕ)) * (10 : ℚ) ^ (0 : ℤ)) := rfl
      rw [hr]
      norm_num
    have key := h2 ("02".toList) ("03.5".toList) 2 (7 / 2)
      (by decide) (by decide) hpb hpc
    have heq : ("02:03.5".toList) = ("02".toList ++ (':' :: "03.5".toList)) := by decide
    rw [heq, key]
    norm_num
  · have hpa : jsParseFloat "5".toList = some 5 := by
      have hr : jsParseFloat "5".toList =
          some ((1 : ℚ) * (((5 : ℕ) : ℚ) + ((0 : ℕ) : ℚ) / (10 : ℚ) ^ (0 : ℕ)) * (10 : ℚ) ^ (0 : ℤ)) := rfl
      rw [hr]
      norm_num
    exact h1 ("5".toList) 5 (by decide) hpa


end YT

namespace YT

theorem dropWhile_head_not {p : Char → Bool} :
    ∀ {l c rest}, List.dropWhile p l = c :: rest → p c = false := by
  intro l
  induction l with
  | nil => intro c rest h; simp at h
  | cons x t ih =>
    intro c rest h
    rw [List.dropWhile_cons] at h
    by_cases hx : p x
    · rw [if_pos hx] at h
      exact ih h
    · rw [if_neg hx] at h
      cases h
      simpa using hx

theorem jsTrim_ne_of_exists_not_ws (l : List Char)
    (h : ∃ c ∈ l, isJsWS c = false) : jsTrim l ≠ [] := by
  intro habs
  obtain ⟨c, hc, hcws⟩ := h
  unfold jsTrim at habs
  have h1 : List.dropWhile isJsWS (List.dropWhile isJsWS l).reverse = [] := by
    simpa using habs
  rw [List.dropWhile_eq_nil_iff] at h1
  have hcd : c ∈ List.dropWhile isJsWS l := by
    have hsplit := List.takeWhile_append_dropWhile (p := isJsWS) (l := l)
    rw [← hsplit] at hc
    rcases List.mem_append.mp hc with hm | hm
    · have := List.mem_takeWhile_imp hm
      rw [hcws] at this
      exact absurd this (by simp)
    · exact hm
  have := h1 c (by simpa using hcd)
  rw [hcws] at this
  exact Bool.false_ne_true this

theorem exists_not_ws_of_jsTrim_ne (l : List Char) (h : jsTrim l ≠ []) :
    ∃ c ∈ jsTrim l, isJsWS c = false := by
  rcases hd : List.dropWhile isJsWS (List.dropWhile isJsWS l).reverse with _ | ⟨c, t⟩
  · exfalso
    apply h
    unfold jsTrim
    rw [hd]
    rfl
  · refine ⟨c, ?_, dropWhile_head_not hd⟩
    unfold jsTrim
    rw [hd]
    simp

theorem jsTrim_trim_ne (l : List Char) (h : jsTrim l ≠ []) :
    jsTrim (jsTrim l) ≠ [] :=
  jsTrim_ne_of_exists_not_ws _ (exists_not_ws_of_jsTrim_ne _ h)

theorem joinSep_head_bracket (sep : List Char) :
    ∀ (cues : List (List Char)), cues ≠ [] →
      (∀ cue ∈ cues, ∃ r, cue = '[' :: r) →
      ∃ t, joinSep sep cues = '[' :: t := by
  intro cues hne hshape
  rcases cues with _ | ⟨x, rest⟩
  · exact absurd rfl hne
  · obtain ⟨r, hr⟩ := hshape x (by simp)
    subst hr
    rcases rest with _ | ⟨y, rest'⟩
    · exact ⟨r, rfl⟩
    · exact ⟨r ++ sep ++ joinSep sep (y :: rest'), rfl⟩

theorem jsTrim_joinSep_cues_ne (cues : List (List Char)) (hne : cues ≠ [])
    (hshape : ∀ cue ∈ cues, ∃ r, cue = '[' :: r) :
    jsTrim (joinSep ['\n'] cues) ≠ [] := by
  obtain ⟨t, ht⟩ := joinSep_head_bracket ['\n'] cues hne hshape
  rw [ht]
  exact jsTrim_ne_of_exists_not_ws _ ⟨'[', by simp, by decide⟩

theorem parseVTTGo_shape (decodeFn : List Char → List Char) (nf : JNum → List Char) :
    ∀ (lines : List (List Char)) (st : Option (JNum × List (List Char))) (cue : List Char),
      cue ∈ parseVTTGo decodeFn nf lines st → ∃ r, cue = '[' :: r := by
  intro lines
  induction lines with
  | nil =>
    intro st cue h
    rcases st with _ | ⟨q, acc⟩
    · simp [parseVTTGo] at h
    · simp [parseVTTGo] at h
      exact ⟨_, h⟩
  | cons l rest ih =>
    intro st cue h
    rcases st with _ | ⟨q, acc⟩
    · rw [parseVTTGo] at h
      by_cases hc : containsSub (jsTrim l) cueSepStr
      · rw [if_pos hc] at h
        exact ih _ cue h
      · rw [if_neg hc] at h
        exact ih _ cue h
    · rw [parseVTTGo] at h
      by_cases hc : jsTrim l = []
      · rw [if_pos hc] at h
        rcases List.mem_cons.mp h with h | h
        · exact ⟨_, h⟩
        · exact ih _ cue h
      · rw [if_neg hc] at h
        exact ih _ cue h

theorem parseVTT_shape (decodeFn : List Char → List Char) (nf : JNum → List Char)
    (text : List Char) (cue : List Char) (h : cue ∈ parseVTT decodeFn nf text) :
    ∃ r, cue = '[' :: r :=
  parseVTTGo_shape decodeFn nf _ _ cue h

theorem parseXMLTextNodes_shape (xmlFn : List Char → Option (List XmlNode × List XmlNode))
    (decodeFn : List Char → List Char) (nf : JNum → List Char)
    (text : List Char) (cue : List Char)
    (h : cue ∈ parseXMLTextNodes xmlFn decodeFn nf text) : ∃ r, cue = '[' :: r := by
  unfold parseXMLTextNodes at h
  rcases hx : xmlFn text with _ | ⟨tn, pn⟩
  · rw [hx] at h
    simp at h
  · rw [hx] at h
    simp only [List.mem_map] at h
    obtain ⟨n, _, hn⟩ := h
    exact ⟨_, hn.symm⟩

theorem eventCue_shape (decodeFn : List Char → List Char) (nf : JNum → List Char)
    (ev : JValue) (r : List Char) (h : eventCue decodeFn nf ev = .ok r) :
    ∃ t, r = '[' :: t := by
  unfold eventCue at h
  rcases h1 : startOf ev with e | st <;> rw [h1] at h <;> (try dsimp only at h)
  · cases h
  · rcases h2 : selectSegs ev with e | sv <;> rw [h2] at h <;> (try dsimp only at h)
    · cases h
    · rcases sv with _ | b | q | s | segList | fields <;> (try dsimp only at h) <;> try cases h
      rcases h3 : mapSegParts nf segList with e | parts <;> rw [h3] at h <;> (try dsimp only at h)
      · cases h
      · cases h
        exact ⟨_, rfl⟩

theorem mapEventCues_shape (decodeFn : List Char → List Char) (nf : JNum → List Char) :
    ∀ (evs : List JValue) (cues : List (List Char)),
      mapEventCues decodeFn nf evs = .ok cues →
      ∀ cue ∈ cues, ∃ r, cue = '[' :: r := by
  intro evs
  induction evs with
  | nil =>
    intro cues h cue hcue
    cases h
    simp at hcue
  | cons ev rest ih =>
    intro cues h cue hcue
    rw [mapEventCues] at h
    rcases h1 : eventCue decodeFn nf ev with e | c <;> rw [h1] at h
    · cases h
    · rcases h2 : mapEventCues decodeFn nf rest with e | cs <;> rw [h2] at h
      · cases h
      · cases h
        rcases List.mem_cons.mp hcue with hc | hc
        · subst hc
          exact eventCue_shape decodeFn nf ev cue h1
        · exact ih cs h2 cue hc

theorem parseJSON3_shape (jsonFn : List Char → Option JValue)
    (decodeFn : List Char → List Char) (nf : JNum → List Char)
    (text : List Char) (cue : List Char)
    (h : cue ∈ parseJSON3 jsonFn decodeFn nf text) : ∃ r, cue = '[' :: r := by
  unfold parseJSON3 at h
  rcases h1 : jsonFn text with _ | v <;> rw [h1] at h <;> (try dsimp only at h)
  · simp at h
  · rcases h2 : parseJSON3Core decodeFn nf v with e | cues <;> rw [h2] at h <;> (try dsimp only at h)
    · simp at h
    · unfold parseJSON3Core at h2
      rcases h3 : accessJ v eventsKey with e | evOpt <;> rw [h3] at h2
      · cases h2
      · rcases evOpt with _ | w
        · cases h2
          simp at h
        · rcases w with _ | b | q | s | evs | fields
          · cases h2; simp at h
          · cases h2; simp at h
          · cases h2; simp at h
          · cases h2; simp at h
          · exact mapEventCues_shape decodeFn nf evs cues h2 cue h
          · cases h2; simp at h

end YT

namespace YT

theorem sniffStep_some {cond : Bool} {cues : List (List Char)} {r : List Char}
    (h : sniffStep cond cues = some r) :
    r = joinSep ['\n'] cues ∧ cues ≠ [] ∧ cond = true := by
  unfold sniffStep at h
  by_cases hc : cond
  · rw [if_pos hc] at h
    by_cases he : cues.isEmpty
    · rw [if_pos he] at h
      cases h
    · rw [if_neg he] at h
      cases h
      exact ⟨rfl, by simpa using he, hc⟩
  · rw [if_neg hc] at h
    cases h

theorem parseBody_some_trim_ne (xmlFn : List Char → Option (List XmlNode × List XmlNode))
    (jsonFn : List Char → Option JValue) (decodeFn : List Char → List Char)
    (nf : JNum → List Char) (text r : List Char)
    (h : parseBody xmlFn jsonFn decodeFn nf text = some r) : jsTrim r ≠ [] := by
  simp only [parseBody] at h
  rcases h1 : sniffStep
      (startsWithList (jsTrim text) ("WEBVTT".toList) || containsSub (jsTrim text) cueSepStr)
      (parseVTT decodeFn nf text) with _ | r1
  · rw [h1] at h
    try dsimp only at h
    rcases h2 : sniffStep
        (startsWithList (jsTrim text) ['<'] || containsSub (jsTrim text) ("<transcript".toList) ||
          containsSub (jsTrim text) ("<text".toList))
        (parseXMLTextNodes xmlFn decodeFn nf text) with _ | r2
    · rw [h2] at h
      try dsimp only at h
      rcases h3 : sniffStep
          (startsWithList (jsTrim text) ['{'] || startsWithList (jsTrim text) ['['] ||
            containsSub (jsTrim text) ("\"events\"".toList))
          (parseJSON3 jsonFn decodeFn nf text) with _ | r3
      · rw [h3] at h
        try dsimp only at h
        by_cases h4 : !(parseXMLTextNodes xmlFn decodeFn nf text).isEmpty
        · rw [if_pos h4] at h
          cases h
          exact jsTrim_joinSep_cues_ne _ (by simpa using h4)
            (fun cue hc => parseXMLTextNodes_shape xmlFn decodeFn nf text cue hc)
        · rw [if_neg h4] at h
          try dsimp only at h
          by_cases h5 : jsTrim (collapseWS (decodeFn text)) ≠ [] ∧
              (jsTrim (collapseWS (decodeFn text))).length < 200000
          · rw [if_pos h5] at h
            cases h
            exact jsTrim_trim_ne _ h5.1
          · rw [if_neg h5] at h
            cases h
      · rw [h3] at h
        try dsimp only at h
        cases h
        obtain ⟨hr, hne, _⟩ := sniffStep_some h3
        subst hr
        exact jsTrim_joinSep_cues_ne _ hne
          (fun cue hc => parseJSON3_shape jsonFn decodeFn nf text cue hc)
    · rw [h2] at h
      try dsimp only at h
      cases h
      obtain ⟨hr, hne, _⟩ := sniffStep_some h2
      subst hr
      exact jsTrim_joinSep_cues_ne _ hne
        (fun cue hc => parseXMLTextNodes_shape xmlFn decodeFn nf text cue hc)
  · rw [h1] at h
    try dsimp only at h
    cases h
    obtain ⟨hr, hne, _⟩ := sniffStep_some h1
    subst hr
    exact jsTrim_joinSep_cues_ne _ hne
      (fun cue hc => parseVTT_shape decodeFn nf text cue hc)

theorem attemptCandidate_some_trim_ne (fetchFn : List Char → Option (List Char))
    (xmlFn : List Char → Option (List XmlNode × List XmlNode))
    (jsonFn : List Char → Option JValue) (decodeFn : List Char → List Char)
    (nf : JNum → List Char) (c r : List Char)
    (h : attemptCandidate fetchFn xmlFn jsonFn decodeFn nf c = some r) :
    jsTrim r ≠ [] := by
  unfold attemptCandidate at h
  rcases h1 : fetchFn c with _ | text <;> rw [h1] at h <;> (try dsimp only at h)
  · cases h
  · by_cases h2 : jsTrim text = []
    · rw [if_pos h2] at h
      cases h
    · rw [if_neg h2] at h
      exact parseBody_some_trim_ne xmlFn jsonFn decodeFn nf text r h

theorem tryCandidates_ok_trim_ne (fetchFn : List Char → Option (List Char))
    (xmlFn : List Char → Option (List XmlNode × List XmlNode))
    (jsonFn : List Char → Option JValue) (decodeFn : List Char → List Char)
    (nf : JNum → List Char) (lang : List Char) :
    ∀ (cands : List (List Char)) (r : List Char),
      tryCandidates fetchFn xmlFn jsonFn decodeFn nf lang cands = .ok r →
      jsTrim r ≠ [] := by
  intro cands
  induction cands with
  | nil =>
    intro r h
    cases h
  | cons c rest ih =>
    intro r h
    rw [tryCandidates] at h
    rcases h1 : attemptCandidate fetchFn xmlFn jsonFn decodeFn nf c with _ | r1 <;>
      rw [h1] at h <;> (try dsimp only at h)
    · exact ih r h
    · cases h
      exact attemptCandidate_some_trim_ne fetchFn xmlFn jsonFn decodeFn nf c r h1

theorem fetchCaptionText_ok_trim_ne (fetchFn : List Char → Option (List Char))
    (xmlFn : List Char → Option (List XmlNode × List XmlNode))
    (jsonFn : List Char → Option JValue) (decodeFn : List Char → List Char)
    (nf : JNum → List Char) (videoId : List Char) (track : CaptionTrack)
    (r : List Char)
    (h : fetchCaptionText fetchFn xmlFn jsonFn decodeFn nf videoId track = .ok r) :
    jsTrim r ≠ [] := by
  unfold fetchCaptionText at h
  rcases h1 : truthyStr track.url with _ | url <;> rw [h1] at h <;> (try dsimp only at h)
  · cases h
  · exact tryCandidates_ok_trim_ne fetchFn xmlFn jsonFn decodeFn nf track.lang _ r h

end YT

namespace YT

theorem fetched_filterMap_eq (fetchFn : List Char → Option (List Char))
    (xmlFn : List Char → Option (List XmlNode × List XmlNode))
    (jsonFn : List Char → Option JValue) (decodeFn : List Char → List Char)
    (nf : JNum → List Char) (vid : List Char) :
    ∀ (tracks : List CaptionTrack),
      tracks.filterMap (fun t =>
        match fetchCaptionText fetchFn xmlFn jsonFn decodeFn nf vid t with
        | .ok txt => if jsTrim txt = [] then none else some (t, txt)
        | .error _ => none)
      = (tracks.filter (fun t =>
          (fetchCaptionText fetchFn xmlFn jsonFn decodeFn nf vid t).isOk)).map
          (fun t => (t, fetchedText fetchFn xmlFn jsonFn decodeFn nf vid t)) := by
  intro tracks
  induction tracks with
  | nil => rfl
  | cons t rest ih =>
    rw [List.filterMap_cons, List.filter_cons]
    rcases hf : fetchCaptionText fetchFn xmlFn jsonFn decodeFn nf vid t with e | txt
    · simp [ih, Except.isOk, Except.toBool]
    · have htr : jsTrim txt ≠ [] :=
        fetchCaptionText_ok_trim_ne fetchFn xmlFn jsonFn decodeFn nf vid t txt hf
      have hft : fetchedText fetchFn xmlFn jsonFn decodeFn nf vid t = txt := by
        unfold fetchedText
        rw [hf]
      simp [htr, ih, hft, Except.isOk, Except.toBool]

theorem fetchCaptionList_ok_ne_nil (captionTracksOpt : Option (List RawTrack))
    (tracks : List CaptionTrack)
    (h : fetchCaptionList captionTracksOpt = .ok tracks) : tracks ≠ [] := by
  unfold fetchCaptionList at h
  by_cases he : (captionTracksOpt.getD []).isEmpty
  · rw [if_pos he] at h
    cases h
  · rw [if_neg he] at h
    cases h
    intro habs
    rw [List.map_eq_nil_iff] at habs
    rw [habs] at he
    simp at he

theorem getBestTranscript_ok_spec (fetchFn : List Char → Option (List Char))
    (xmlFn : List Char → Option (List XmlNode × List XmlNode))
    (jsonFn : List Char → Option JValue) (decodeFn : List Char → List Char)
    (nf : JNum → List Char) (videoId : Option (List Char))
    (captionTracksOpt : Option (List RawTrack)) (vid : List Char)
    (tracks : List CaptionTrack) (r : AggregateResult)
    (hvid : truthyStr videoId = some vid)
    (hlist : fetchCaptionList captionTracksOpt = .ok tracks)
    (h : getBestTranscript videoId captionTracksOpt fetchFn xmlFn jsonFn decodeFn nf = .ok r) :
    r.videoId = vid ∧ r.tracks = tracks ∧
    r.combined = joinSep ('\n' :: '\n' :: [])
      ((tracks.filter (fun t =>
          (fetchCaptionText fetchFn xmlFn jsonFn decodeFn nf vid t).isOk)).map
        (fun t => mkSection t (fetchedText fetchFn xmlFn jsonFn decodeFn nf vid t))) := by
  unfold getBestTranscript at h
  rw [hvid] at h
  dsimp only at h
  rw [hlist] at h
  dsimp only at h
  have hne : tracks ≠ [] := fetchCaptionList_ok_ne_nil captionTracksOpt tracks hlist
  rw [if_neg (by simpa using hne)] at h
  rw [fetched_filterMap_eq fetchFn xmlFn jsonFn decodeFn nf vid tracks] at h
  by_cases hemp : ((tracks.filter (fun t =>
      (fetchCaptionText fetchFn xmlFn jsonFn decodeFn nf vid t).isOk)).map
      (fun t => (t, fetchedText fetchFn xmlFn jsonFn decodeFn nf vid t))).isEmpty
  · rw [if_pos hemp] at h
    cases h
  · rw [if_neg hemp] at h
    cases h
    refine ⟨rfl, rfl, ?_⟩
    dsimp only
    rw [List.map_map]
    rfl

end YT

namespace YT

/-- Claim C1: when an aggregation run succeeds, `combined` holds exactly
one section per track whose fetch+parse succeeded — failed tracks
contribute no section — in the resolver's track order; each section is
the header `--- Track: lang (name) ---` (the parenthesised name segment
omitted when the name is empty) followed by a newline and that track's
text, and sections are joined by a blank line; the returned `tracks`
list is the full resolver list, failed tracks included. -/
theorem getBestTranscript_sections (fetchFn : List Char → Option (List Char))
    (xmlFn : List Char → Option (List XmlNode × List XmlNode))
    (jsonFn : List Char → Option JValue) (decodeFn : List Char → List Char)
    (nf : JNum → List Char) (videoId : Option (List Char))
    (captionTracksOpt : Option (List RawTrack)) (vid : List Char)
    (tracks : List CaptionTrack) (r : AggregateResult)
    (hvid : truthyStr videoId = some vid)
    (hlist : fetchCaptionList captionTracksOpt = .ok tracks)
    (h : getBestTranscript videoId captionTracksOpt fetchFn xmlFn jsonFn decodeFn nf = .ok r) :
    r.videoId = vid ∧ r.tracks = tracks ∧
    r.combined = joinSep ('\n' :: '\n' :: [])
      ((tracks.filter (fun t =>
          (fetchCaptionText fetchFn xmlFn jsonFn decodeFn nf vid t).isOk)).map
        (fun t => "--- Track: ".toList ++ t.lang ++ [' '] ++
          (if t.name = [] then [] else '(' :: t.name ++ [')']) ++
          " ---".toList ++ ['\n'] ++
          fetchedText fetchFn xmlFn jsonFn decodeFn nf vid t)) := by
  obtain ⟨h1, h2, h3⟩ := getBestTranscript_ok_spec fetchFn xmlFn jsonFn decodeFn nf
    videoId captionTracksOpt vid tracks r hvid hlist h
  exact ⟨h1, h2, h3⟩

/-- Claim C9: a track whose url field is null makes `fetchCaptionText`
fail at once with the corresponding error, whatever the fetch oracle
does (so no candidate is fetched); the aggregator treats this like any
per-track failure: the track stays in the returned `tracks` list but is
not among the tracks whose sections form `combined`. -/
theorem nullUrl_track_excluded :
    (∀ fetchFn xmlFn jsonFn decodeFn nf (vid : List Char) (t : CaptionTrack),
      t.url = none →
      fetchCaptionText fetchFn xmlFn jsonFn decodeFn nf vid t =
        .error ("No track URL available for ".toList ++ t.lang)) ∧
    (∀ fetchFn xmlFn jsonFn decodeFn nf videoId captionTracksOpt vid tracks r
        (t : CaptionTrack),
      truthyStr videoId = some vid →
      fetchCaptionList captionTracksOpt = .ok tracks →
      getBestTranscript videoId captionTracksOpt fetchFn xmlFn jsonFn decodeFn nf = .ok r →
      t ∈ tracks → t.url = none →
      t ∈ r.tracks ∧
      t ∉ tracks.filter (fun u =>
        (fetchCaptionText fetchFn xmlFn jsonFn decodeFn nf vid u).isOk) ∧
      r.combined = joinSep ('\n' :: '\n' :: [])
        ((tracks.filter (fun u =>
            (fetchCaptionText fetchFn xmlFn jsonFn decodeFn nf vid u).isOk)).map
          (fun u => mkSection u (fetchedText fetchFn xmlFn jsonFn decodeFn nf vid u)))) := by
  have hfail : ∀ fetchFn xmlFn jsonFn decodeFn nf (vid : List Char) (t : CaptionTrack),
      t.url = none →
      fetchCaptionText fetchFn xmlFn jsonFn decodeFn nf vid t =
        .error (noTrackUrlMsg t.lang) := by
    intro fetchFn xmlFn jsonFn decodeFn nf vid t h
    unfold fetchCaptionText
    rw [h]
    rfl
  constructor
  · intro fetchFn xmlFn jsonFn decodeFn nf vid t h
    exact hfail fetchFn xmlFn jsonFn decodeFn nf vid t h
  · intro fetchFn xmlFn jsonFn decodeFn nf videoId captionTracksOpt vid tracks r t
      hvid hlist hok hmem hurl
    obtain ⟨h1, h2, h3⟩ := getBestTranscript_ok_spec fetchFn xmlFn jsonFn decodeFn nf
      videoId captionTracksOpt vid tracks r hvid hlist hok
    refine ⟨by rw [h2]; exact hmem, ?_, h3⟩
    intro habs
    rw [List.mem_filter] at habs
    have hbad := habs.2
    rw [hfail fetchFn xmlFn jsonFn decodeFn nf vid t hurl] at hbad
    simp [Except.isOk, Except.toBool] at hbad

/-- Claim C4 (amended): `getBestTranscript` fails with the
NoCaptionsFetched error when every track's fetch+parse attempt fails,
and a single track's failure never aborts the aggregation (whenever at
least one track succeeds, the aggregation succeeds); when the metadata's
caption-track list is empty or absent, the failure — which happens for
every fetch oracle, hence before any fetch — is the track-list builder's
NoCaptionTracks error, not the aggregator's NoCaptionsFound error, whose
guard is unreachable because the track-list builder never returns an
empty list. -/
theorem getBestTranscript_failure_modes :
    (∀ fetchFn xmlFn jsonFn decodeFn nf videoId captionTracksOpt vid tracks,
      truthyStr videoId = some vid →
      fetchCaptionList captionTracksOpt = .ok tracks →
      (∀ t ∈ tracks,
        (fetchCaptionText fetchFn xmlFn jsonFn decodeFn nf vid t).isOk = false) →
      getBestTranscript videoId captionTracksOpt fetchFn xmlFn jsonFn decodeFn nf =
        .error noCaptionsFetchedMsg) ∧
    (∀ fetchFn xmlFn jsonFn decodeFn nf videoId vid,
      truthyStr videoId = some vid →
      getBestTranscript videoId (some []) fetchFn xmlFn jsonFn decodeFn nf =
          .error noCaptionTracksMsg ∧
      getBestTranscript videoId none fetchFn xmlFn jsonFn decodeFn nf =
          .error noCaptionTracksMsg) ∧
    (∀ captionTracksOpt tracks,
      fetchCaptionList captionTracksOpt = .ok tracks → tracks ≠ []) ∧
    (∀ fetchFn xmlFn jsonFn decodeFn nf videoId captionTracksOpt vid tracks,
      truthyStr videoId = some vid →
      fetchCaptionList captionTracksOpt = .ok tracks →
      (∃ t ∈ tracks,
        (fetchCaptionText fetchFn xmlFn jsonFn decodeFn nf vid t).isOk = true) →
      (getBestTranscript videoId captionTracksOpt fetchFn xmlFn jsonFn decodeFn nf).isOk
        = true) := by
  refine ⟨?_, ?_, ?_, ?_⟩
  · intro fetchFn xmlFn jsonFn decodeFn nf videoId captionTracksOpt vid tracks
      hvid hlist hall
    unfold getBestTranscript
    rw [hvid]
    dsimp only
    rw [hlist]
    dsimp only
    have hne : tracks ≠ [] := fetchCaptionList_ok_ne_nil captionTracksOpt tracks hlist
    rw [if_neg (by simpa using hne)]
    rw [fetched_filterMap_eq fetchFn xmlFn jsonFn decodeFn nf vid tracks]
    have hfilter : tracks.filter (fun t =>
        (fetchCaptionText fetchFn xmlFn jsonFn decodeFn nf vid t).isOk) = [] := by
      rw [List.filter_eq_nil_iff]
      intro t ht
      rw [hall t ht]
      simp
    rw [hfilter]
    rfl
  · intro fetchFn xmlFn jsonFn decodeFn nf videoId vid hvid
    constructor
    · unfold getBestTranscript
      rw [hvid]
      rfl
    · unfold getBestTranscript
      rw [hvid]
      rfl
  · exact fetchCaptionList_ok_ne_nil
  · intro fetchFn xmlFn jsonFn decodeFn nf videoId captionTracksOpt vid tracks
      hvid hlist hex
    obtain ⟨t, hmem, hok⟩ := hex
    unfold getBestTranscript
    rw [hvid]
    dsimp only
    rw [hlist]
    dsimp only
    have hne : tracks ≠ [] := fetchCaptionList_ok_ne_nil captionTracksOpt tracks hlist
    rw [if_neg (by simpa using hne)]
    rw [fetched_filterMap_eq fetchFn xmlFn jsonFn decodeFn nf vid tracks]
    have hmemf : t ∈ tracks.filter (fun u =>
        (fetchCaptionText fetchFn xmlFn jsonFn decodeFn nf vid u).isOk) := by
      rw [List.mem_filter]
      exact ⟨hmem, hok⟩
    have hnef : ¬ ((tracks.filter (fun u =>
        (fetchCaptionText fetchFn xmlFn jsonFn decodeFn nf vid u).isOk)).map
        (fun u => (u, fetchedText fetchFn xmlFn jsonFn decodeFn nf vid u))).isEmpty = true := by
      intro habs
      rw [List.isEmpty_iff, List.map_eq_nil_iff] at habs
      rw [habs] at hmemf
      simp at hmemf
    rw [if_neg hnef]
    rfl

/-- Claim C4 counterexample: with an empty caption-track manifest, the
aggregation fails with the track-list builder's NoCaptionTracks message
(`No caption tracks found in player response`), which differs from the
NoCaptionsFound message (`No captions found for this video.`) the claim
names. -/
theorem getBestTranscript_emptyTracks_counterexample :
    getBestTranscript (some ("v".toList)) (some []) (fun _ => none) (fun _ => none)
        (fun _ => none) (fun s => s) (fun _ => ['0']) = .error noCaptionTracksMsg ∧
    noCaptionTracksMsg ≠ noCaptionsFoundMsg := by
  constructor
  · rfl
  · decide

end YT

namespace YT

theorem startsWithList_cons_ex {l : List Char} {c : Char} {cs : List Char}
    (h : startsWithList l (c :: cs) = true) : ∃ t, l = c :: t := by
  unfold startsWithList matchesAt0 at h
  rcases l with _ | ⟨x, t⟩
  · simp at h
  · simp at h
    exact ⟨t, by rw [h.1]⟩

/-- Claim C3: for a track with a truthy base URL, the Track Fetcher
builds exactly four candidate URLs — `fmt=vtt`, `fmt=json3`, `fmt=srv3`,
then the bare URL, in that fixed order — and walks them sequentially:
a failed candidate falls through to the next one, a successful candidate
returns immediately with no further candidates attempted (the remaining
candidate list is irrelevant), and in particular a candidate whose body
sniffs as VTT and parses to at least one cue returns those cues joined
by newlines at once. -/
theorem fetchCaptionText_candidate_order (fetchFn : List Char → Option (List Char))
    (xmlFn : List Char → Option (List XmlNode × List XmlNode))
    (jsonFn : List Char → Option JValue) (decodeFn : List Char → List Char)
    (nf : JNum → List Char) (videoId : List Char) (track : CaptionTrack)
    (url : List Char) (hurl : truthyStr track.url = some url) :
    candidateURLs url =
      [url ++ (if containsSub url ['?'] then ['&'] else ['?']) ++ "fmt=vtt".toList,
       url ++ (if containsSub url ['?'] then ['&'] else ['?']) ++ "fmt=json3".toList,
       url ++ (if containsSub url ['?'] then ['&'] else ['?']) ++ "fmt=srv3".toList,
       url] ∧
    fetchCaptionText fetchFn xmlFn jsonFn decodeFn nf videoId track =
      tryCandidates fetchFn xmlFn jsonFn decodeFn nf track.lang (candidateURLs url) ∧
    (∀ c rest r, attemptCandidate fetchFn xmlFn jsonFn decodeFn nf c = some r →
      tryCandidates fetchFn xmlFn jsonFn decodeFn nf track.lang (c :: rest) = .ok r) ∧
    (∀ c rest, attemptCandidate fetchFn xmlFn jsonFn decodeFn nf c = none →
      tryCandidates fetchFn xmlFn jsonFn decodeFn nf track.lang (c :: rest) =
        tryCandidates fetchFn xmlFn jsonFn decodeFn nf track.lang rest) ∧
    (∀ c rest body, fetchFn c = some body →
      startsWithList (jsTrim body) ("WEBVTT".toList) = true →
      parseVTT decodeFn nf body ≠ [] →
      tryCandidates fetchFn xmlFn jsonFn decodeFn nf track.lang (c :: rest) =
        .ok (joinSep ['\n'] (parseVTT decodeFn nf body))) := by
  refine ⟨rfl, ?_, ?_, ?_, ?_⟩
  · unfold fetchCaptionText
    rw [hurl]
  · intro c rest r h
    rw [tryCandidates, h]
  · intro c rest h
    rw [tryCandidates, h]
  · intro c rest body hfetch hvtt hcues
    obtain ⟨t, ht⟩ := startsWithList_cons_ex hvtt
    have htrne : jsTrim body ≠ [] := by
      rw [ht]
      simp
    have hstep : sniffStep
        (startsWithList (jsTrim body) ("WEBVTT".toList) || containsSub (jsTrim body) cueSepStr)
        (parseVTT decodeFn nf body) = some (joinSep ['\n'] (parseVTT decodeFn nf body)) := by
      unfold sniffStep
      rw [hvtt]
      simp only [Bool.true_or, if_true]
      rw [if_neg (by simpa using hcues)]
    have hattempt : attemptCandidate fetchFn xmlFn jsonFn decodeFn nf c =
        some (joinSep ['\n'] (parseVTT decodeFn nf body)) := by
      unfold attemptCandidate
      rw [hfetch]
      dsimp only
      rw [if_neg htrne]
      simp only [parseBody]
      rw [hstep]
    rw [tryCandidates, hattempt]

end YT

namespace YT

theorem accessJ_ok_of_ne_null (v : JValue) (h : v ≠ .jnull) (name : List Char) :
    ∃ o, accessJ v name = .ok o := by
  cases v
  · exact absurd rfl h
  · exact ⟨none, rfl⟩
  · exact ⟨none, rfl⟩
  · exact ⟨none, rfl⟩
  · exact ⟨none, rfl⟩
  · exact ⟨_, rfl⟩

theorem startOf_ok (ev : JValue) (h : ev ≠ .jnull) : ∃ q, startOf ev = .ok q := by
  obtain ⟨o, ho⟩ := accessJ_ok_of_ne_null ev h tStartMsKey
  unfold startOf
  rw [ho]
  rcases o with _ | tv
  · obtain ⟨o₂, ho₂⟩ := accessJ_ok_of_ne_null ev h tOffsetMsKey
    dsimp only
    rw [ho₂]
    rcases o₂ with _ | ov
    · exact ⟨_, rfl⟩
    · dsimp only
      by_cases hov : jsTruthy ov
      · rw [if_pos hov]
        exact ⟨_, rfl⟩
      · rw [if_neg hov]
        exact ⟨_, rfl⟩
  · exact ⟨_, rfl⟩

theorem selectSegs_ok_ne_null {ev : JValue} {w : JValue}
    (h : selectSegs ev = .ok w) : ev ≠ .jnull := by
  rintro rfl
  simp [selectSegs, accessJ] at h

theorem mapSegParts_all_empty (nf : JNum → List Char) :
    ∀ (segl : List JValue), (∀ s ∈ segl, segPick s = .ok (.jstr [])) →
      mapSegParts nf segl = .ok (segl.map (fun _ => ([] : List Char))) := by
  intro segl
  induction segl with
  | nil => intro _; rfl
  | cons s rest ih =>
    intro h
    rw [mapSegParts]
    rw [h s (by simp)]
    dsimp only
    rw [ih (fun x hx => h x (by simp [hx]))]
    rfl

theorem flatten_map_nil {α : Type} : ∀ (l : List α),
    (l.map (fun _ => ([] : List Char))).flatten = [] := by
  intro l
  induction l with
  | nil => rfl
  | cons x rest ih => simp [ih]

theorem eventCue_empty_segs (decodeFn : List Char → List Char) (nf : JNum → List Char)
    (ev : JValue) (segl : List JValue)
    (hsel : selectSegs ev = .ok (.jarr segl))
    (hall : ∀ s ∈ segl, segPick s = .ok (.jstr []))
    (hdec : decodeFn [] = []) :
    eventCue decodeFn nf ev = .ok ('[' :: nf (startNum ev) ++ "s] ".toList) := by
  have hnn : ev ≠ .jnull := selectSegs_ok_ne_null hsel
  obtain ⟨q, hq⟩ := startOf_ok ev hnn
  have hsn : startNum ev = q := by
    unfold startNum
    rw [hq]
  unfold eventCue
  rw [hq]
  dsimp only
  rw [hsel]
  dsimp only
  rw [mapSegParts_all_empty nf segl hall]
  dsimp only
  rw [flatten_map_nil]
  have hcoll : collapseWS [] = [] := rfl
  have htrimn : jsTrim ([] : List Char) = [] := rfl
  rw [hcoll, htrimn, hdec, hsn]
  simp

theorem mapEventCues_empty_segs (decodeFn : List Char → List Char) (nf : JNum → List Char)
    (hdec : decodeFn [] = []) :
    ∀ (evs : List JValue),
      (∀ ev ∈ evs, ∃ segl, selectSegs ev = .ok (.jarr segl) ∧
        ∀ s ∈ segl, segPick s = .ok (.jstr [])) →
      mapEventCues decodeFn nf evs =
        .ok (evs.map (fun ev => '[' :: nf (startNum ev) ++ "s] ".toList)) := by
  intro evs
  induction evs with
  | nil => intro _; rfl
  | cons ev rest ih =>
    intro h
    obtain ⟨segl, hsel, hall⟩ := h ev (by simp)
    rw [mapEventCues]
    rw [eventCue_empty_segs decodeFn nf ev segl hsel hall hdec]
    dsimp only
    rw [ih (fun x hx => h x (by simp [hx]))]
    rfl

/-- Claim C8: a JSON-event body whose events all lack text segments (no
segs/a entries, or entries whose utf8/t/w chain yields the empty string)
still produces one cue per event, each cue being just the
`[startNum-s]` prefix with an empty text part; consequently the Track
Fetcher treats such a body as a success — at least one cue — and
returns it instead of falling through to the next candidate. -/
theorem parseJSON3_empty_segs_cues (jsonFn : List Char → Option JValue)
    (decodeFn : List Char → List Char) (nf : JNum → List Char)
    (body : List Char) (v : JValue) (evs : List JValue)
    (hjson : jsonFn body = some v)
    (hev : accessJ v eventsKey = .ok (some (.jarr evs)))
    (hsegs : ∀ ev ∈ evs, ∃ segl, selectSegs ev = .ok (.jarr segl) ∧
      ∀ s ∈ segl, segPick s = .ok (.jstr []))
    (hdec : decodeFn [] = []) :
    parseJSON3 jsonFn decodeFn nf body =
      evs.map (fun ev => '[' :: nf (startNum ev) ++ "s] ".toList) ∧
    (evs ≠ [] →
      ∀ fetchFn xmlFn c rest lang,
        fetchFn c = some body →
        startsWithList (jsTrim body) ['{'] = true →
        containsSub (jsTrim body) cueSepStr = false →
        containsSub (jsTrim body) ("<transcript".toList) = false →
        containsSub (jsTrim body) ("<text".toList) = false →
        tryCandidates fetchFn xmlFn jsonFn decodeFn nf lang (c :: rest) =
          .ok (joinSep ['\n']
            (evs.map (fun ev => '[' :: nf (startNum ev) ++ "s] ".toList)))) := by
  have hparse : parseJSON3 jsonFn decodeFn nf body =
      evs.map (fun ev => '[' :: nf (startNum ev) ++ "s] ".toList) := by
    unfold parseJSON3
    rw [hjson]
    dsimp only
    unfold parseJSON3Core
    rw [hev]
    dsimp only
    rw [mapEventCues_empty_segs decodeFn nf hdec evs hsegs]
  refine ⟨hparse, ?_⟩
  intro hne fetchFn xmlFn c rest lang hfetch hbrace hnovtt hnoxml1 hnoxml2
  obtain ⟨t, ht⟩ := startsWithList_cons_ex hbrace
  have htrne : jsTrim body ≠ [] := by
    rw [ht]
    simp
  have hnw : startsWithList (jsTrim body) ("WEBVTT".toList) = false := by
    rw [ht]
    rfl
  have hlt : startsWithList (jsTrim body) ['<'] = false := by
    rw [ht]
    rfl
  have hcuene : evs.map (fun ev => '[' :: nf (startNum ev) ++ "s] ".toList) ≠ [] := by
    simpa using hne
  have hstep1 : sniffStep
      (startsWithList (jsTrim body) ("WEBVTT".toList) || containsSub (jsTrim body) cueSepStr)
      (parseVTT decodeFn nf body) = none := by
    unfold sniffStep
    rw [hnw, hnovtt]
    rfl
  have hstep2 : sniffStep
      (startsWithList (jsTrim body) ['<'] || containsSub (jsTrim body) ("<transcript".toList) ||
        containsSub (jsTrim body) ("<text".toList))
      (parseXMLTextNodes xmlFn decodeFn nf body) = none := by
    unfold sniffStep
    rw [hlt, hnoxml1, hnoxml2]
    rfl
  have hstep3 : sniffStep
      (startsWithList (jsTrim body) ['{'] || startsWithList (jsTrim body) ['['] ||
        containsSub (jsTrim body) ("\"events\"".toList))
      (parseJSON3 jsonFn decodeFn nf body) =
      some (joinSep ['\n'] (evs.map (fun ev => '[' :: nf (startNum ev) ++ "s] ".toList))) := by
    unfold sniffStep
    rw [hbrace]
    simp only [Bool.true_or, if_true]
    rw [hparse]
    rw [if_neg (by simpa using hcuene)]
  have hattempt : attemptCandidate fetchFn xmlFn jsonFn decodeFn nf c =
      some (joinSep ['\n'] (evs.map (fun ev => '[' :: nf (startNum ev) ++ "s] ".toList))) := by
    unfold attemptCandidate
    rw [hfetch]
    dsimp only
    rw [if_neg htrne]
    simp only [parseBody]
    rw [hstep1]
    dsimp only
    rw [hstep2]
    dsimp only
    rw [hstep3]
  rw [tryCandidates, hattempt]

end YT

namespace YT

/-- Witness for claim C1 on a concrete one-track run. -/
theorem getBestTranscript_sections_witness :
    wResult.videoId = "v".toList ∧ wResult.tracks = [mkTrack wRaw] ∧
    wResult.combined = joinSep ('\n' :: '\n' :: [])
      (([mkTrack wRaw].filter (fun t =>
          (fetchCaptionText wFetch wXml wJson wDecode wNum ("v".toList) t).isOk)).map
        (fun t => "--- Track: ".toList ++ t.lang ++ [' '] ++
          (if t.name = [] then [] else '(' :: t.name ++ [')']) ++
          " ---".toList ++ ['\n'] ++
          fetchedText wFetch wXml wJson wDecode wNum ("v".toList) t)) :=
  getBestTranscript_sections wFetch wXml wJson wDecode wNum (some ("v".toList))
    (some [wRaw]) ("v".toList) [mkTrack wRaw] wResult (by decide) (by decide) (by decide)

/-- Witness for claim C9 on a two-track run whose second track has a null url. -/
theorem nullUrl_track_excluded_witness :
    fetchCaptionText wFetch wXml wJson wDecode wNum ("v".toList) (mkTrack wRawBad) =
      .error ("No track URL available for ".toList ++ (mkTrack wRawBad).lang) ∧
    (mkTrack wRawBad ∈ wResult2.tracks ∧
      mkTrack wRawBad ∉ [mkTrack wRaw, mkTrack wRawBad].filter (fun u =>
        (fetchCaptionText wFetch wXml wJson wDecode wNum ("v".toList) u).isOk) ∧
      wResult2.combined = joinSep ('\n' :: '\n' :: [])
        (([mkTrack wRaw, mkTrack wRawBad].filter (fun u =>
            (fetchCaptionText wFetch wXml wJson wDecode wNum ("v".toList) u).isOk)).map
          (fun u => mkSection u (fetchedText wFetch wXml wJson wDecode wNum ("v".toList) u)))) :=
  ⟨nullUrl_track_excluded.1 wFetch wXml wJson wDecode wNum ("v".toList)
      (mkTrack wRawBad) (by decide),
   nullUrl_track_excluded.2 wFetch wXml wJson wDecode wNum (some ("v".toList))
      (some [wRaw, wRawBad]) ("v".toList) [mkTrack wRaw, mkTrack wRawBad] wResult2
      (mkTrack wRawBad) (by decide) (by decide) (by decide) (by decide) (by decide)⟩

/-- Witness for claim C3 on a concrete track and fetch oracle. -/
theorem fetchCaptionText_candidate_order_witness :
    candidateURLs ("u".toList) =
      ["u?fmt=vtt".toList, "u?fmt=json3".toList, "u?fmt=srv3".toList, "u".toList] ∧
    fetchCaptionText wFetch wXml wJson wDecode wNum ("v".toList) (mkTrack wRaw) =
      tryCandidates wFetch wXml wJson wDecode wNum ((mkTrack wRaw).lang)
        (candidateURLs ("u".toList)) ∧
    tryCandidates wFetch wXml wJson wDecode wNum ((mkTrack wRaw).lang)
      ("u?fmt=vtt".toList :: ["zzz".toList]) = .ok ("[0s] hi".toList) := by
  obtain ⟨h1, h2, h3, h4, h5⟩ := fetchCaptionText_candidate_order wFetch wXml wJson
    wDecode wNum ("v".toList) (mkTrack wRaw) ("u".toList) (by decide)
  refine ⟨?_, h2, ?_⟩
  · rw [h1]
    decide
  · rw [h5 ("u?fmt=vtt".toList) ["zzz".toList] wVttBody (by decide) (by decide) (by decide)]
    decide

/-- Witness for claim C4 (amended) at concrete manifests. -/
theorem getBestTranscript_failure_modes_witness :
    getBestTranscript (some ("v".toList)) (some []) wFetch wXml wJson wDecode wNum =
      .error noCaptionTracksMsg ∧
    getBestTranscript (some ("v".toList)) (some [wRawBad]) wFetch wXml wJson wDecode wNum =
      .error noCaptionsFetchedMsg ∧
    (getBestTranscript (some ("v".toList)) (some [wRaw, wRawBad])
        wFetch wXml wJson wDecode wNum).isOk = true := by
  obtain ⟨ha, hb, hc, hd⟩ := getBestTranscript_failure_modes
  exact ⟨(hb wFetch wXml wJson wDecode wNum (some ("v".toList)) ("v".toList) (by decide)).1,
    ha wFetch wXml wJson wDecode wNum (some ("v".toList)) (some [wRawBad]) ("v".toList)
      [mkTrack wRawBad] (by decide) (by decide) (by decide),
    hd wFetch wXml wJson wDecode wNum (some ("v".toList)) (some [wRaw, wRawBad]) ("v".toList)
      [mkTrack wRaw, mkTrack wRawBad] (by decide) (by decide)
      ⟨mkTrack wRaw, by decide, by decide⟩⟩

/-- Witness for claim C5 at concrete tier values. -/
theorem getPlayerResponse_tiers_witness :
    relayTimeoutMs = 1000 ∧
    getPlayerResponse (some (JValue.jstr ['x'])) none [] wJson = .ok (.jstr ['x']) ∧
    getPlayerResponse none (some (.jstr ['y'])) [] wJson = .ok (.jstr ['y']) := by
  obtain ⟨h0, h1, h2, h3, h4, h5⟩ := getPlayerResponse_tiers
  exact ⟨h0, h1 (.jstr ['x']) none [] wJson (by decide),
    h2 none (.jstr ['y']) [] wJson rfl (by decide)⟩

/-- Witness for claim C6 at concrete malformed inputs. -/
theorem parsers_fail_to_empty_witness :
    parseJSON3 wJson wDecode wNum ("x".toList) = [] ∧
    parseJSON3 (fun _ => some .jnull) wDecode wNum ("x".toList) = [] ∧
    parseXMLTextNodes wXml wDecode wNum ("x".toList) = [] ∧
    parseVTT wDecode wNum ("hello".toList) = [] := by
  obtain ⟨h1, h2, h3, h4⟩ := parsers_fail_to_empty
  refine ⟨h1 wJson wDecode wNum _ rfl,
    h2 (fun _ => some .jnull) wDecode wNum _ .jnull rfl ?_,
    h3 wXml wDecode wNum _ rfl,
    h4 wDecode wNum _ (by decide)⟩
  intro evs
  simp [accessJ]

/-- Witness for claim C8 on a one-event body with no text segments. -/
theorem parseJSON3_empty_segs_cues_witness :
    parseJSON3 wJsonEv wDecode wNum wJsonBody =
      [wEvObj].map (fun ev => '[' :: wNum (startNum ev) ++ "s] ".toList) ∧
    tryCandidates (fun _ => some wJsonBody) wXml wJsonEv wDecode wNum ("en".toList)
      ("c".toList :: []) =
      .ok (joinSep ['\n']
        ([wEvObj].map (fun ev => '[' :: wNum (startNum ev) ++ "s] ".toList))) := by
  have hsegs : ∀ ev ∈ [wEvObj], ∃ segl, selectSegs ev = .ok (.jarr segl) ∧
      ∀ s ∈ segl, segPick s = .ok (.jstr []) := by
    intro ev hm
    simp only [List.mem_singleton] at hm
    subst hm
    exact ⟨[], rfl, by simp⟩
  obtain ⟨h1, h2⟩ := parseJSON3_empty_segs_cues wJsonEv wDecode wNum wJsonBody wEvents
    [wEvObj] rfl rfl hsegs rfl
  exact ⟨h1, h2 (by simp) (fun _ => some wJsonBody) wXml ("c".toList) [] ("en".toList)
    rfl (by decide) (by decide) (by decide) (by decide)⟩

/-- Witness for claim C10 on a concrete non-getTranscript message. -/
theorem onMessage_non_getTranscript_witness :
    onMessageListener (JValue.jstr ['p']) (.error ['e']) = (none, false) ∧
    onMessageListener (JValue.jstr ['p']) (.error ['e']) =
      onMessageListener (JValue.jstr ['p']) (.error ['f']) :=
  onMessage_non_getTranscript.1 (JValue.jstr ['p']) (.error ['e']) (.error ['f'])
    (Or.inl (by decide))

end YT
